import Mathlib

/-!
Verification of the RoxyRadio playback-navigation core (`PlayerCore` in the
repository's player-core module).  The engine state, its operations and the
pure helpers are shallowly embedded below; JavaScript numbers at the time
boundary are modelled as `JNum` (a finite rational or NaN / ±Infinity),
JS array indexing by a possibly fractional numeric index as `qIdx`, and a
thrown exception as an `Option.none` result (in every modelled path the
engine performs no state mutation before the throw, except where noted).
Randomness (`Math.random` in `_getNextStreamIndex`) is modelled by passing
the sampled index as an explicit parameter `c`; `ChoiceOk` captures the
guarantee established by the rejection-sampling loop.
-/

namespace RoxyRadio

/-- A JavaScript number: either a finite value (modelled as a rational) or
one of the non-finite values NaN, +Infinity, -Infinity. -/
inductive JNum where
  | nan
  | posInf
  | negInf
  | fin (q : ℚ)
deriving DecidableEq

/-- `Number.isFinite`. -/
def JNum.isFiniteB : JNum → Bool
  | .fin _ => true
  | _ => false

/-- JS comparison `x >= q` for a finite right-hand side (false on NaN). -/
def JNum.geQ : JNum → ℚ → Bool
  | .nan, _ => false
  | .posInf, _ => true
  | .negInf, _ => false
  | .fin x, q => q ≤ x

/-- JS comparison `x < q` for a finite right-hand side (false on NaN). -/
def JNum.ltQ : JNum → ℚ → Bool
  | .nan, _ => false
  | .posInf, _ => false
  | .negInf, _ => true
  | .fin x, q => x < q

/-- JS comparison `x > q` for a finite right-hand side (false on NaN). -/
def JNum.gtQ : JNum → ℚ → Bool
  | .nan, _ => false
  | .posInf, _ => true
  | .negInf, _ => false
  | .fin x, q => q < x

/-- JS subtraction `x - q` with a finite right-hand side. -/
def JNum.subQ : JNum → ℚ → JNum
  | .nan, _ => .nan
  | .posInf, _ => .posInf
  | .negInf, _ => .negInf
  | .fin x, q => .fin (x - q)

/-- A song segment: `{ name, range: [start, end] }`.  `range[1]` is called
`stop` because `end` is a Lean keyword. -/
structure Song where
  name : String
  start : ℚ
  stop : ℚ
deriving DecidableEq

/-- A stream after `init` mapping: `songs = null` (here `none`) marks a
Rule 0 stream. -/
structure Stream where
  videoId : String
  name : String
  title : String
  songs : Option (List Song)
deriving DecidableEq

/-- A history entry `{ vIdx, rIdx, time }`; `time = none` models
`undefined`.  Indices are rationals because restored session data may hold
arbitrary JSON numbers. -/
structure HistEntry where
  vIdx : ℚ
  rIdx : ℚ
  time : Option ℚ
deriving DecidableEq

/-- The engine state: the fields of the `PlayerCore` object (the injected
callbacks are modelled as outputs of the operations instead). -/
structure PlayerCore where
  playlist : List Stream
  vIdx : ℚ
  rIdx : ℚ
  loopMode : ℤ
  yapMode : Bool
  shuffleMode : Bool
  history : List HistEntry
  durations : List (String × ℚ)
deriving DecidableEq

/-- The constructor state. -/
def mkCore : PlayerCore :=
  { playlist := [], vIdx := 0, rIdx := 0, loopMode := 0, yapMode := false,
    shuffleMode := false, history := [], durations := [] }

def LOOP_NONE : ℤ := 0
def LOOP_TRACK : ℤ := 1
def LOOP_STREAM : ℤ := 2
def RESTART_THRESHOLD_SECONDS : ℚ := 5
def HISTORY_LIMIT : ℕ := 20
def SEAMLESS_GAP_SECONDS : ℚ := 1/20

/-- `Math.min` on finite numbers (kernel-reducible, unlike `min`). -/
def jsMin (a b : ℚ) : ℚ := if a ≤ b then a else b

/-- `Math.max` on finite numbers (kernel-reducible, unlike `max`). -/
def jsMax (a b : ℚ) : ℚ := if a ≤ b then b else a

/-- `Math.abs` on finite numbers (kernel-reducible, unlike `|·|`). -/
def jsAbs (q : ℚ) : ℚ := if q < 0 then -q else q

/-- JS array access `l[i]` with a numeric index: defined only when the
index is a non-negative integer within bounds, `undefined` (`none`)
otherwise (also for fractional or negative indices). -/
def qIdx {α : Type} (l : List α) (i : ℚ) : Option α :=
  if i.den = 1 ∧ 0 ≤ i.num then l.get? i.num.toNat else none

/-- `Array.prototype.findIndex` (as an `Option ℕ` instead of `-1`). -/
def findIdxJS {α : Type} (p : α → Bool) : List α → Option ℕ
  | [] => none
  | a :: tl => if p a then some 0 else (findIdxJS p tl).map (· + 1)

/-- `this.playlist[this.vIdx]`. -/
def getCurrentStream (s : PlayerCore) : Option Stream :=
  qIdx s.playlist s.vIdx

/-- `getStreamDefaultStart(stream)`. -/
def getStreamDefaultStart (st : Option Stream) : ℚ :=
  match st with
  | none => 0
  | some stream =>
    match stream.songs with
    | some (s0 :: _) => s0.start
    | _ => 0

/-- `getCurrentSong()`: Rule 0 synthesizes a whole-stream song from the
duration cache; otherwise `stream.songs[this.rIdx]` (possibly
`undefined`). -/
def getCurrentSong (s : PlayerCore) : Option Song :=
  match getCurrentStream s with
  | none => none
  | some stream =>
    match stream.songs with
    | none =>
      let cached := s.durations.lookup stream.videoId
      let duration : ℚ :=
        match cached with
        | some c => if 0 < c then c else 0
        | none => 0
      some { name := stream.title, start := 0, stop := duration }
    | some songs => qIdx songs s.rIdx

/-- The song list of the current stream (`[]` for Rule 0 or when the
stream index is out of range); used to state the `rIdx` bound. -/
def curSongs (s : PlayerCore) : List Song :=
  match getCurrentStream s with
  | some stream => stream.songs.getD []
  | none => []

/-- Position context returned by `_syncIndexToTime`. -/
inductive Ctx where
  | inside
  | before
  | gap
  | after
  | none
deriving DecidableEq

/-- The `findIndex` predicate `currentTime >= s.range[0] && currentTime < s.range[1]`. -/
def insideSong (t : JNum) (sg : Song) : Bool :=
  t.geQ sg.start && t.ltQ sg.stop

/-- The gap-search loop of `_syncIndexToTime`: the first `i` with
`currentTime >= songs[i].range[1] && currentTime < songs[i+1].range[0]`. -/
def gapScan (t : JNum) : List Song → Option ℕ
  | a :: b :: tl =>
    if t.geQ a.stop && t.ltQ b.start then some 0
    else (gapScan t (b :: tl)).map (· + 1)
  | _ => Option.none

/-- `_syncIndexToTime(currentTime, stream)`: classifies the time and
updates `rIdx`; returns the context together with the updated state. -/
def syncIndexToTime (t : JNum) (st : Option Stream) (s : PlayerCore) : Ctx × PlayerCore :=
  match st with
  | Option.none => (Ctx.none, s)
  | some stream =>
    match stream.songs with
    | Option.none => (Ctx.none, s)
    | some [] => (Ctx.none, s)
    | some (s0 :: rest) =>
      if t.isFiniteB = false then (Ctx.none, s)
      else
        match findIdxJS (insideSong t) (s0 :: rest) with
        | some i => (Ctx.inside, { s with rIdx := (i : ℚ) })
        | Option.none =>
          if t.ltQ s0.start then (Ctx.before, { s with rIdx := 0 })
          else if t.geQ (rest.getLastD s0).stop then
            (Ctx.after, { s with rIdx := (((s0 :: rest).length - 1 : ℕ) : ℚ) })
          else
            match gapScan t (s0 :: rest) with
            | some i => (Ctx.gap, { s with rIdx := (i : ℚ) })
            | Option.none => (Ctx.none, s)

/-- `syncToTime(currentTime)`. -/
def syncToTime (t : JNum) (s : PlayerCore) : PlayerCore :=
  (syncIndexToTime t (getCurrentStream s) s).2

/-- `toggleYap()` (persistence side effect dropped). -/
def toggleYap (s : PlayerCore) : PlayerCore :=
  { s with yapMode := !s.yapMode }

/-- `toggleLoop()`; JS `%` on integers truncates towards zero (`Int.tmod`). -/
def toggleLoop (s : PlayerCore) : PlayerCore :=
  { s with loopMode := (s.loopMode + 1).tmod 3 }

/-- `toggleShuffle()`: wipes history on the On→Off transition. -/
def toggleShuffle (s : PlayerCore) : PlayerCore :=
  let wasOn := s.shuffleMode
  let s1 := { s with shuffleMode := !s.shuffleMode }
  if wasOn && !s1.shuffleMode then { s1 with history := [] } else s1

/-- `_getHistoryPosition(stream)`; `none` when `songs[safeIdx]` is
`undefined` (fractional `rIdx`) and `.range[0]` would throw. -/
def getHistoryPosition (st : Option Stream) (s : PlayerCore) : Option ℚ :=
  match st with
  | Option.none => some 0
  | some stream =>
    match stream.songs with
    | Option.none => some (getStreamDefaultStart (some stream))
    | some [] => some (getStreamDefaultStart (some stream))
    | some (s0 :: rest) =>
      let maxIdx : ℚ := (((s0 :: rest).length : ℚ) - 1)
      let safeIdx := jsMin (jsMax s.rIdx 0) maxIdx
      (qIdx (s0 :: rest) safeIdx).map (·.start)

/-- `pushHistory()`: snapshot the current position, evicting the oldest
entry past `HISTORY_LIMIT`. -/
def pushHistory (s : PlayerCore) : Option PlayerCore :=
  match getHistoryPosition (getCurrentStream s) s with
  | Option.none => Option.none
  | some pos =>
    let h := s.history ++ [{ vIdx := s.vIdx, rIdx := s.rIdx, time := some pos }]
    some { s with history := if HISTORY_LIMIT < h.length then h.drop 1 else h }

/-- The history list produced by a successful `pushHistory` appending
entry `e`: the concatenation, with the oldest entry evicted past
`HISTORY_LIMIT`.  (Definitionally the `history` field of `pushHistory`.) -/
def pushedHistory (s : PlayerCore) (e : HistEntry) : List HistEntry :=
  if HISTORY_LIMIT < (s.history ++ [e]).length then (s.history ++ [e]).drop 1
  else s.history ++ [e]

/-- `_getNextStreamIndex()`.  The random sample of the shuffle branch is
passed in as `c`; the rejection-sampling loop's guarantee is `ChoiceOk`. -/
def getNextStreamIndex (s : PlayerCore) (c : ℕ) : ℚ :=
  if s.shuffleMode then
    if s.playlist.length ≤ 1 then 0 else (c : ℚ)
  else
    if s.vIdx < (s.playlist.length : ℚ) - 1 then s.vIdx + 1 else 0

/-- What the rejection-sampling loop guarantees about the sampled index. -/
def ChoiceOk (s : PlayerCore) (c : ℕ) : Prop :=
  s.shuffleMode = true → 1 < s.playlist.length →
    c < s.playlist.length ∧ (c : ℚ) ≠ s.vIdx

/-- `nextStream()`. -/
def nextStream (c : ℕ) (s : PlayerCore) : Option PlayerCore :=
  (pushHistory s).map (fun s1 =>
    { s1 with vIdx := getNextStreamIndex s1 c, rIdx := 0 })

/-- `prevStream({skipHistory})`. -/
def prevStream (skipHistory : Bool) (c : ℕ) (s : PlayerCore) : PlayerCore :=
  if skipHistory && s.shuffleMode then
    let v := if 0 < s.vIdx then s.vIdx - 1 else (s.playlist.length : ℚ) - 1
    { s with vIdx := v, rIdx := 0 }
  else
    match s.history.getLast? with
    | some prev =>
      let s1 := { s with history := s.history.dropLast, vIdx := prev.vIdx }
      match getCurrentStream s1 with
      | some stream =>
        match stream.songs with
        | some (s0 :: rest) =>
          let maxIdx : ℚ := (((s0 :: rest).length : ℚ) - 1)
          { s1 with rIdx := jsMin (jsMax prev.rIdx 0) maxIdx }
        | _ => { s1 with rIdx := 0 }
      | Option.none => { s1 with rIdx := 0 }
    | Option.none =>
      if s.shuffleMode then
        { s with vIdx := getNextStreamIndex s c, rIdx := 0 }
      else
        let v := if 0 < s.vIdx then s.vIdx - 1 else (s.playlist.length : ℚ) - 1
        { s with vIdx := v, rIdx := 0 }

/-- The scanning loop of `normalizeResumeTime`: per index, the in-song
check, then the gap check against the following song; falling through the
whole list pins `rIdx` to the last song. -/
def normScan (time : ℚ) (total : ℕ) (s : PlayerCore) : List Song → ℕ → ℚ × PlayerCore
  | [], _ => (time, { s with rIdx := ((total - 1 : ℕ) : ℚ) })
  | cur :: tl, i =>
    if cur.start ≤ time ∧ time < cur.stop then (time, { s with rIdx := (i : ℚ) })
    else
      match tl with
      | next :: _ =>
        if cur.stop ≤ time ∧ time < next.start then
          (next.start, { s with rIdx := ((i + 1 : ℕ) : ℚ) })
        else normScan time total s tl (i + 1)
      | [] => (time, { s with rIdx := ((total - 1 : ℕ) : ℚ) })

/-- `normalizeResumeTime(timeSeconds)`; the input `Option.none` models
`undefined`/`null`, a non-finite or negative number is clamped to 0.
Returns the resolved time with the updated state; the overall `none`
result models the `songs[0]` access throwing on an empty songs array
(impossible for `init`-built playlists). -/
def normalizeResumeTime (timeSeconds : Option JNum) (s : PlayerCore) : Option (ℚ × PlayerCore) :=
  match timeSeconds with
  | Option.none => some (0, s)
  | some tj =>
    let time : ℚ := match tj with
      | .fin q => if q < 0 then 0 else q
      | _ => 0
    match getCurrentStream s with
    | Option.none => some (time, s)
    | some stream =>
      match stream.songs with
      | Option.none => some (time, s)
      | some songs =>
        if s.yapMode then some (time, s)
        else
          match songs with
          | [] => Option.none
          | s0 :: rest =>
            if time < s0.start then some (time, { s with rIdx := 0 })
            else some (normScan time (s0 :: rest).length s (s0 :: rest) 0)

/-- The action objects returned by `nextSong`/`prevSong`:
`{type:'load'}`, `{type:'seek', time}`, `{type:'seek', time, reload:true}`. -/
inductive Action where
  | load
  | seek (t : ℚ)
  | seekReload (t : ℚ)
deriving DecidableEq

/-- Callback invocations observable from `checkTick`/`advanceAuto`. -/
inductive Eff where
  | playVideo
  | seekTo (t : ℚ)
deriving DecidableEq

/-- The inner helper `jumpToNextStreamStart` of `nextSong`. -/
def jumpToNextStreamStart (c : ℕ) (s : PlayerCore) : Option (PlayerCore × Action) :=
  (nextStream c s).map (fun s1 => (s1, Action.load))

/-- `nextSong(currentTime)`.  `none` models a thrown exception
(`stream.songs` on an undefined stream, or an undefined song access). -/
def nextSong (t : JNum) (c : ℕ) (s : PlayerCore) : Option (PlayerCore × Action) :=
  match getCurrentStream s with
  | Option.none => Option.none
  | some stream =>
    let sync := syncIndexToTime t (some stream) s
    let posContext := sync.1
    let s0 := sync.2
    match stream.songs with
    | Option.none =>
      if s0.loopMode = LOOP_STREAM then
        some (s0, Action.seek (getStreamDefaultStart (some stream)))
      else jumpToNextStreamStart c s0
    | some songs =>
      if posContext = Ctx.before then
        let s1 := { s0 with rIdx := 0 }
        if s1.yapMode then
          match songs with
          | sg0 :: _ => some (s1, Action.seek sg0.start)
          | [] => Option.none
        else some (s1, Action.load)
      else if posContext = Ctx.after then
        if s0.loopMode = LOOP_STREAM then some ({ s0 with rIdx := 0 }, Action.load)
        else jumpToNextStreamStart c s0
      else if s0.yapMode then
        if s0.rIdx < (songs.length : ℚ) - 1 then
          let s1 := { s0 with rIdx := s0.rIdx + 1 }
          match qIdx songs s1.rIdx with
          | some sg => some (s1, Action.seek sg.start)
          | Option.none => Option.none
        else jumpToNextStreamStart c s0
      else
        if s0.rIdx < (songs.length : ℚ) - 1 then
          some ({ s0 with rIdx := s0.rIdx + 1 }, Action.load)
        else if s0.loopMode = LOOP_STREAM then
          some ({ s0 with rIdx := 0 }, Action.load)
        else if s0.loopMode = LOOP_TRACK then jumpToNextStreamStart c s0
        else jumpToNextStreamStart c s0

/-- The inner helper `jumpToPreviousStreamEnd` of `prevSong`. -/
def jumpToPreviousStreamEnd (c : ℕ) (s : PlayerCore) : PlayerCore × Action :=
  let s1 := prevStream false c s
  match getCurrentStream s1 with
  | some prev =>
    match prev.songs with
    | some (p0 :: ps) =>
      ({ s1 with rIdx := (((p0 :: ps).length : ℚ) - 1) }, Action.load)
    | _ => (s1, Action.load)
  | Option.none => (s1, Action.load)

/-- `prevSong(currentTime)`. -/
def prevSong (t : JNum) (c : ℕ) (s : PlayerCore) : Option (PlayerCore × Action) :=
  match getCurrentStream s with
  | Option.none => Option.none
  | some stream =>
    let sync := syncIndexToTime t (some stream) s
    let posContext := sync.1
    let s0 := sync.2
    match stream.songs with
    | Option.none =>
      let start := getStreamDefaultStart (some stream)
      if (t.subQ start).gtQ RESTART_THRESHOLD_SECONDS then some (s0, Action.seek start)
      else if s0.loopMode = LOOP_STREAM then some (s0, Action.seek start)
      else some (jumpToPreviousStreamEnd c s0)
    | some [] =>
      let start := getStreamDefaultStart (some stream)
      if (t.subQ start).gtQ RESTART_THRESHOLD_SECONDS then some (s0, Action.seek start)
      else if s0.loopMode = LOOP_STREAM then some (s0, Action.seek start)
      else some (jumpToPreviousStreamEnd c s0)
    | some (sg0 :: rest) =>
      let songs := sg0 :: rest
      if posContext = Ctx.before then
        if s0.loopMode = LOOP_STREAM then
          let s1 := { s0 with rIdx := ((songs.length : ℚ) - 1) }
          match qIdx songs s1.rIdx with
          | some wrapSong =>
            some (s1, if s1.yapMode then Action.seek wrapSong.start
                      else Action.seekReload wrapSong.start)
          | Option.none => Option.none
        else some (jumpToPreviousStreamEnd c s0)
      else if posContext = Ctx.gap ∨ posContext = Ctx.after then
        match qIdx songs s0.rIdx with
        | some target =>
          some (s0, if s0.yapMode then Action.seek target.start else Action.load)
        | Option.none => Option.none
      else
        match qIdx songs s0.rIdx with
        | Option.none => Option.none
        | some song =>
          let start := song.start
          if (t.subQ start).gtQ RESTART_THRESHOLD_SECONDS then some (s0, Action.seek start)
          else if 0 < s0.rIdx then
            let s1 := { s0 with rIdx := s0.rIdx - 1 }
            if s1.yapMode then
              match qIdx songs s1.rIdx with
              | some sg => some (s1, Action.seek sg.start)
              | Option.none => Option.none
            else some (s1, Action.load)
          else if s0.loopMode = LOOP_STREAM then
            let s1 := { s0 with rIdx := ((songs.length : ℚ) - 1) }
            match qIdx songs s1.rIdx with
            | some wrapSong =>
              some (s1, if s1.yapMode then Action.seek wrapSong.start
                        else Action.seekReload wrapSong.start)
            | Option.none => Option.none
          else some (jumpToPreviousStreamEnd c s0)

/-- `advanceAuto()`. -/
def advanceAuto (c : ℕ) (s : PlayerCore) : Option (PlayerCore × List Eff) :=
  if s.loopMode = LOOP_TRACK then
    match getCurrentSong s with
    | some song => some (s, [Eff.seekTo song.start])
    | Option.none => Option.none
  else
    match getCurrentStream s with
    | Option.none => Option.none
    | some stream =>
      match stream.songs with
      | Option.none =>
        if s.loopMode = LOOP_STREAM then some (s, [Eff.seekTo 0])
        else (nextStream c s).map (fun s1 => (s1, [Eff.playVideo]))
      | some songs =>
        if s.rIdx < (songs.length : ℚ) - 1 then
          some ({ s with rIdx := s.rIdx + 1 }, [Eff.playVideo])
        else if s.loopMode = LOOP_STREAM then
          some ({ s with rIdx := 0 }, [Eff.playVideo])
        else (nextStream c s).map (fun s1 => (s1, [Eff.playVideo]))

/-- `onVideoEnded()`. -/
def onVideoEnded (c : ℕ) (s : PlayerCore) : Option (PlayerCore × List Eff) :=
  advanceAuto c s

/-- `checkTick(currentTime)`. -/
def checkTick (t : JNum) (c : ℕ) (s : PlayerCore) : Option (PlayerCore × List Eff) :=
  match getCurrentStream s with
  | Option.none => some (s, [])
  | some stream =>
    match stream.songs with
    | Option.none => some (s, [])
    | some songs =>
      if s.yapMode then
        let s1 := (syncIndexToTime t (some stream) s).2
        match songs.getLast? with
        | Option.none => Option.none
        | some lastSong =>
          if t.geQ (lastSong.stop - 1/5) then
            (nextStream c s1).map (fun s2 => (s2, [Eff.playVideo]))
          else some (s1, [])
      else
        match qIdx songs s.rIdx with
        | Option.none => Option.none
        | some currentSong =>
          if t.ltQ (currentSong.start - 1) || t.gtQ (currentSong.stop + 1) then
            match findIdxJS (insideSong t) songs with
            | some matchIdx => some ({ s with rIdx := (matchIdx : ℚ) }, [])
            | Option.none => some (s, [])
          else
            let hasSeamlessNext : Bool :=
              match qIdx songs (s.rIdx + 1) with
              | some nextSg => decide (jsAbs (nextSg.start - currentSong.stop) ≤ SEAMLESS_GAP_SECONDS)
              | Option.none => false
            if !hasSeamlessNext && t.geQ (currentSong.stop - 1/5) then
              advanceAuto c s
            else some (s, [])

/-- `_findSongIndexForTime(currentTime, songs)`. -/
def findSongIndexForTime (t : JNum) (songs : List Song) (s : PlayerCore) : ℚ :=
  match findIdxJS (insideSong t) songs with
  | some i => (i : ℚ)
  | Option.none =>
    if 0 ≤ s.rIdx ∧ s.rIdx < (songs.length : ℚ) then s.rIdx else 0

/-- `_getActiveSongDisplayInfo(currentTime, songs)` (the `song`, `name`
and `index` fields of the returned record). -/
def getActiveSongDisplayInfo (t : JNum) (songs : List Song) (s : PlayerCore) :
    Option Song × String × ℚ :=
  let idx := findSongIndexForTime t songs s
  let safeIdx := if 0 ≤ idx ∧ idx < (songs.length : ℚ) then idx else 0
  let song := qIdx songs safeIdx
  let name :=
    match song with
    | some sg => if sg.name = "" then "Unknown Track" else sg.name
    | Option.none => "Unknown Track"
  (song, name, safeIdx)

/-- The gap loop of `_getGapStatus` over consecutive song pairs. -/
def gapStatusLoop (t : JNum) (suffix : String) (total : ℕ) : List Song → ℕ → Option String
  | a :: b :: tl, i =>
    if t.geQ a.stop && t.ltQ b.start then
      some ("Next: " ++ b.name ++ " " ++ "(" ++ toString (i + 2) ++ "/" ++
            toString total ++ ")" ++ suffix)
    else gapStatusLoop t suffix total (b :: tl) (i + 1)
  | _, _ => Option.none

/-- `_getGapStatus(currentTime, songs, suffix)`: the outer `none` models
the throw on an empty `songs` array; the inner option is JS `null`. -/
def getGapStatus (t : JNum) (songs : List Song) (suffix : String) (s : PlayerCore) :
    Option (Option String) :=
  match songs with
  | [] => Option.none
  | s0 :: rest =>
    some (
      if t.ltQ s0.start then
        if decide (0 < s.rIdx) && decide (s.rIdx < (songs.length : ℚ)) then Option.none
        else some ("Next: " ++ s0.name ++ " " ++ "(1/" ++ toString songs.length ++ ")" ++ suffix)
      else
        match gapStatusLoop t suffix songs.length songs 0 with
        | some g => some g
        | Option.none =>
          if t.geQ (rest.getLastD s0).stop then some "Stream Ending..."
          else Option.none)

/-- `getStatusText(currentTime)`; `none` models the throw on a
`songs = []` stream (impossible for `init`-built playlists). -/
def getStatusText (t : JNum) (s : PlayerCore) : Option String :=
  match getCurrentStream s with
  | Option.none => some "Loading..."
  | some stream =>
    let suffix := if s.yapMode then " with Yapping" else ""
    match stream.songs with
    | Option.none =>
      let text := if stream.title = "" then "Unknown Video" else stream.title
      some (text ++ " (1/1)" ++ suffix)
    | some songs =>
      (getGapStatus t songs suffix s).map (fun gapStatus =>
        match gapStatus with
        | some g => g
        | Option.none =>
          let info := getActiveSongDisplayInfo t songs s
          info.2.1 ++ " (" ++ toString (info.2.2 + 1) ++ "/" ++
            toString songs.length ++ ")" ++ suffix)

/-- A JSON value, as produced by a successful `JSON.parse`. -/
inductive JVal where
  | jnull
  | jbool (b : Bool)
  | jnum (q : ℚ)
  | jstr (str : String)
  | jarr (items : List JVal)
  | jobj (fields : List (String × JVal))

/-- Member access on a parsed JSON object (`JSON.parse` keeps the last
occurrence of a duplicated key). -/
def jlookup (fields : List (String × JVal)) (k : String) : Option JVal :=
  (fields.reverse.find? (fun p => p.1 == k)).map (·.2)

/-- One pass of the history-restore pipeline of `init`:
`filter(h => h && typeof h.vIdx === 'number')` followed by the defaulting
`map`.  Non-object values have no `vIdx` member (or are falsy) and are
discarded. -/
def entryOfJVal : JVal → Option HistEntry
  | .jobj fields =>
    match jlookup fields "vIdx" with
    | some (.jnum v) =>
      some { vIdx := v,
             rIdx := match jlookup fields "rIdx" with
                     | some (.jnum r) => r
                     | _ => 0,
             time := match jlookup fields "time" with
                     | some (.jnum q) => some q
                     | _ => Option.none }
    | _ => Option.none
  | _ => Option.none

/-- The history-restore step of `init`.  The argument is the outcome of
`JSON.parse` on the stored string (`none` = the parse threw, which `init`
catches).  The result `none` models the uncaught `TypeError` raised by
`rawHistory.filter` when the parsed value is not an array. -/
def restoreHistory (parsed : Option JVal) : Option (List HistEntry) :=
  match parsed with
  | Option.none => some []
  | some (.jarr items) =>
    let hs := items.filterMap entryOfJVal
    some (if HISTORY_LIMIT < hs.length then hs.drop (hs.length - HISTORY_LIMIT) else hs)
  | some _ => Option.none

/-- One element of the `segmentData` argument of `init`. -/
structure SegmentInput where
  videoId : String
  name : Option String
  title : Option String
  songs : Option (List Song)

/-- The per-stream mapping of `init` (empty song lists become `null`). -/
def initStream (v : SegmentInput) : Stream :=
  { videoId := v.videoId
    name := v.name.getD ""
    title := match v.title with
             | some t => if t = "" then v.videoId else t
             | Option.none => v.videoId
    songs := match v.songs with
             | some l => if 0 < l.length then some l else Option.none
             | Option.none => Option.none }

/-- The durable settings read back by `init`, abstracted past the
string-parsing boundary: `yapIsTrue` is `saved.yapMode === 'true' ||
saved.yapMode === true`, `loopParsed`/`vIdxParsed` are the `parseInt`
results (`none` = NaN), `videoId` is `none` when missing/empty (falsy). -/
structure StoredSettings where
  yapIsTrue : Bool
  shuffleIsTrue : Bool
  loopParsed : Option ℤ
  videoId : Option String
  vIdxParsed : Option ℤ

/-- `init(segmentData)` on the pre-init state `s` (normally `mkCore`);
`none` models the non-array-history `TypeError`. -/
def init (segmentData : List SegmentInput) (saved : StoredSettings)
    (parsedHistory : Option JVal) (s : PlayerCore) : Option PlayerCore :=
  let playlist := segmentData.map initStream
  let matched : Option ℕ :=
    match saved.videoId with
    | some vid => findIdxJS (fun p => p.videoId == vid) playlist
    | Option.none => Option.none
  let vIdx1 : ℚ :=
    match matched with
    | some i => (i : ℚ)
    | Option.none =>
      match saved.vIdxParsed with
      | some sv => if 0 ≤ sv ∧ sv < playlist.length then (sv : ℚ) else s.vIdx
      | Option.none => s.vIdx
  (restoreHistory parsedHistory).map (fun h =>
    { s with playlist := playlist, yapMode := saved.yapIsTrue,
             shuffleMode := saved.shuffleIsTrue,
             loopMode := saved.loopParsed.getD 0,
             vIdx := vIdx1, history := h })

/-! ### Basic lemmas about the embedded search loops -/

theorem findIdxJS_bound {α : Type} (p : α → Bool) (l : List α) (i : ℕ)
    (h : findIdxJS p l = some i) : i < l.length := by
  induction l generalizing i with
  | nil => simp [findIdxJS] at h
  | cons a tl ih =>
    by_cases hp : p a
    · simp [findIdxJS, hp] at h
      simp only [List.length_cons]
      omega
    · simp [findIdxJS, hp] at h
      obtain ⟨j, hj, rfl⟩ := h
      have := ih j hj
      simp only [List.length_cons]
      omega

theorem findIdxJS_of_min {α : Type} (p : α → Bool) (l : List α) (i : ℕ) (a : α)
    (ha : l[i]? = some a) (hpa : p a = true)
    (hmin : ∀ k b, k < i → l[k]? = some b → p b = false) :
    findIdxJS p l = some i := by
  induction l generalizing i with
  | nil => simp at ha
  | cons x tl ih =>
    cases i with
    | zero =>
      simp only [List.getElem?_cons_zero, Option.some.injEq] at ha
      subst ha
      simp [findIdxJS, hpa]
    | succ n =>
      have hx : p x = false := hmin 0 x (by omega) (by simp)
      simp only [findIdxJS, hx, Bool.false_eq_true, if_false, Option.map_eq_some']
      refine ⟨n, ih n (by simpa using ha) (fun k b hk hkb => hmin (k + 1) b (by omega) (by simpa using hkb)), rfl⟩

theorem findIdxJS_none {α : Type} (p : α → Bool) (l : List α)
    (h : ∀ a ∈ l, p a = false) : findIdxJS p l = Option.none := by
  induction l with
  | nil => rfl
  | cons x tl ih =>
    simp only [findIdxJS, h x (by simp), Bool.false_eq_true, if_false]
    rw [ih (fun a ha => h a (by simp [ha]))]
    rfl

theorem findIdxJS_some_get {α : Type} (p : α → Bool) (l : List α) (i : ℕ)
    (h : findIdxJS p l = some i) : ∃ a, l[i]? = some a ∧ p a = true := by
  induction l generalizing i with
  | nil => simp [findIdxJS] at h
  | cons x tl ih =>
    by_cases hp : p x
    · simp [findIdxJS, hp] at h
      subst h
      exact ⟨x, by simp, hp⟩
    · simp [findIdxJS, hp] at h
      obtain ⟨j, hj, rfl⟩ := h
      obtain ⟨a, ha, hpa⟩ := ih j hj
      exact ⟨a, by simpa using ha, hpa⟩

theorem gapScan_bound (t : JNum) (l : List Song) (i : ℕ)
    (h : gapScan t l = some i) : i + 1 < l.length := by
  induction l generalizing i with
  | nil => simp [gapScan] at h
  | cons a tl ih =>
    cases tl with
    | nil => simp [gapScan] at h
    | cons b tl2 =>
      by_cases hc : (t.geQ a.stop && t.ltQ b.start) = true
      · simp [gapScan, hc] at h
        simp only [List.length_cons]
        omega
      · simp [gapScan, hc] at h
        obtain ⟨j, hj, rfl⟩ := h
        have := ih j hj
        simp only [List.length_cons] at this ⊢
        omega

theorem gapScan_of_min (t : JNum) (l : List Song) (i : ℕ) (a b : Song)
    (ha : l[i]? = some a) (hb : l[i + 1]? = some b)
    (hab : (t.geQ a.stop && t.ltQ b.start) = true)
    (hmin : ∀ k a2 b2, k < i → l[k]? = some a2 → l[k + 1]? = some b2 →
      (t.geQ a2.stop && t.ltQ b2.start) = false) :
    gapScan t l = some i := by
  induction l generalizing i with
  | nil => simp at ha
  | cons x tl ih =>
    cases tl with
    | nil =>
      have := gapScan_bound t [x] i
      cases i with
      | zero => simp at hb
      | succ n => simp at hb
    | cons y tl2 =>
      cases i with
      | zero =>
        simp only [List.getElem?_cons_succ, List.getElem?_cons_zero, Option.some.injEq] at ha hb
        subst ha
        subst hb
        simp [gapScan, hab]
      | succ n =>
        have hx : (t.geQ x.stop && t.ltQ y.start) = false :=
          hmin 0 x y (by omega) (by simp) (by simp)
        simp only [gapScan, hx, Bool.false_eq_true, if_false, Option.map_eq_some']
        refine ⟨n, ih n (by simpa using ha) (by simpa using hb)
          (fun k a2 b2 hk hk1 hk2 => hmin (k + 1) a2 b2 (by omega) (by simpa using hk1) (by simpa using hk2)), rfl⟩

/-! ### The data-model ordering invariant on song lists -/

/-- The §3 invariant (validated outside the engine): songs are stored in
ascending, non-overlapping range order and every range is non-degenerate. -/
def SongsWF (l : List Song) : Prop :=
  List.Chain' (fun a b => a.stop ≤ b.start) l ∧ ∀ sg ∈ l, sg.start < sg.stop

theorem songsWF_adj (l : List Song) (h : SongsWF l) (i : ℕ) (a b : Song)
    (ha : l[i]? = some a) (hb : l[i + 1]? = some b) : a.stop ≤ b.start := by
  have hlen : i + 1 < l.length := by
    rcases Nat.lt_or_ge (i + 1) l.length with h1 | h1
    · exact h1
    · rw [List.getElem?_eq_none h1] at hb
      exact Option.noConfusion hb
  have hchain := List.chain'_iff_get.mp h.1 i (by omega)
  have ha' := ha
  have hb' := hb
  rw [List.getElem?_eq_getElem (by omega)] at ha'
  rw [List.getElem?_eq_getElem (by omega)] at hb'
  injection ha' with ha2
  injection hb' with hb2
  simp only [List.get_eq_getElem] at hchain
  rw [ha2, hb2] at hchain
  exact hchain

theorem songsWF_mem (l : List Song) (h : SongsWF l) (i : ℕ) (a : Song)
    (ha : l[i]? = some a) : a.start < a.stop :=
  h.2 a (List.getElem?_mem ha)

theorem songsWF_le (l : List Song) (h : SongsWF l) (i j : ℕ) (hij : i < j)
    (a b : Song) (ha : l[i]? = some a) (hb : l[j]? = some b) : a.stop ≤ b.start := by
  induction j generalizing b with
  | zero => omega
  | succ n ihn =>
    rcases Nat.lt_or_ge i n with hin | hin
    · have hlen : n + 1 < l.length := by
        rcases Nat.lt_or_ge (n + 1) l.length with h1 | h1
        · exact h1
        · rw [List.getElem?_eq_none h1] at hb
          exact Option.noConfusion hb
      obtain ⟨c, hc⟩ : ∃ c, l[n]? = some c :=
        ⟨getElem l n (by omega), List.getElem?_eq_getElem (by omega)⟩
      have h1 := ihn hin c hc
      have h2 := songsWF_mem l h n c hc
      have h3 := songsWF_adj l h n c b hc hb
      linarith
    · have : i = n := by omega
      subst this
      exact songsWF_adj l h i a b ha hb

theorem getElem?_lt_length {α : Type} (l : List α) (i : ℕ) (a : α) (h : l[i]? = some a) :
    i < l.length := by
  rcases Nat.lt_or_ge i l.length with h1 | h1
  · exact h1
  · rw [List.getElem?_eq_none h1] at h
    exact Option.noConfusion h

theorem getLastD_cons_eq {α : Type} (a : α) (l : List α) :
    (a :: l).getLast? = some (l.getLastD a) := by
  induction l generalizing a with
  | nil => rfl
  | cons b tl ih =>
    rw [List.getLast?_cons_cons, List.getLastD_eq_getLast?, ih]
    rfl

theorem JNum.isFiniteB_fin (q : ℚ) : (JNum.fin q).isFiniteB = true := rfl

theorem JNum.geQ_fin (x q : ℚ) : (JNum.fin x).geQ q = decide (q ≤ x) := rfl

theorem JNum.ltQ_fin (x q : ℚ) : (JNum.fin x).ltQ q = decide (x < q) := rfl

theorem JNum.gtQ_fin (x q : ℚ) : (JNum.fin x).gtQ q = decide (q < x) := rfl

theorem insideSong_fin (q : ℚ) (sg : Song) :
    insideSong (.fin q) sg = (decide (sg.start ≤ q) && decide (q < sg.stop)) := rfl

theorem insideSong_true (q : ℚ) (sg : Song) (h1 : sg.start ≤ q) (h2 : q < sg.stop) :
    insideSong (.fin q) sg = true := by
  simp [insideSong_fin, h1, h2]

theorem insideSong_false_left (q : ℚ) (sg : Song) (h : q < sg.start) :
    insideSong (.fin q) sg = false := by
  have hd : decide (sg.start ≤ q) = false := decide_eq_false (not_le.mpr h)
  simp [insideSong_fin, hd]

theorem insideSong_false_right (q : ℚ) (sg : Song) (h : sg.stop ≤ q) :
    insideSong (.fin q) sg = false := by
  have hd : decide (q < sg.stop) = false := decide_eq_false (not_lt.mpr h)
  simp [insideSong_fin, hd]

/-- Reformulation of `_syncIndexToTime` once the stream's song list is
known to be `s0 :: rest`. -/
theorem syncIndexToTime_songs (t : JNum) (stream : Stream) (s0 : Song) (rest : List Song)
    (hs : stream.songs = some (s0 :: rest)) (s : PlayerCore) :
    syncIndexToTime t (some stream) s =
      (if t.isFiniteB = false then (Ctx.none, s)
       else
        match findIdxJS (insideSong t) (s0 :: rest) with
        | some i => (Ctx.inside, { s with rIdx := (i : ℚ) })
        | Option.none =>
          if t.ltQ s0.start then (Ctx.before, { s with rIdx := 0 })
          else if t.geQ (rest.getLastD s0).stop then
            (Ctx.after, { s with rIdx := (((s0 :: rest).length - 1 : ℕ) : ℚ) })
          else
            match gapScan t (s0 :: rest) with
            | some i => (Ctx.gap, { s with rIdx := (i : ℚ) })
            | Option.none => (Ctx.none, s)) := by
  simp only [syncIndexToTime, hs]

theorem sync_noSongs (t : JNum) (stream : Stream) (h : stream.songs = Option.none)
    (s : PlayerCore) : syncIndexToTime t (some stream) s = (Ctx.none, s) := by
  simp only [syncIndexToTime, h]

theorem sync_inside (s : PlayerCore) (stream : Stream) (songs : List Song)
    (hs : stream.songs = some songs) (hwf : SongsWF songs) (q : ℚ) (i : ℕ) (a : Song)
    (ha : songs[i]? = some a) (h1 : a.start ≤ q) (h2 : q < a.stop) :
    syncIndexToTime (.fin q) (some stream) s = (Ctx.inside, { s with rIdx := (i : ℚ) }) := by
  have hfind : findIdxJS (insideSong (.fin q)) songs = some i := by
    apply findIdxJS_of_min _ _ _ _ ha (insideSong_true q a h1 h2)
    intro k b hk hkb
    have hba : b.stop ≤ a.start := songsWF_le songs hwf k i hk b a hkb ha
    exact insideSong_false_right q b (by linarith)
  cases songs with
  | nil => simp at ha
  | cons s0 rest =>
    rw [syncIndexToTime_songs (.fin q) stream s0 rest hs s]
    simp [JNum.isFiniteB_fin, hfind]

theorem sync_before (s : PlayerCore) (stream : Stream) (songs : List Song)
    (hs : stream.songs = some songs) (hwf : SongsWF songs) (q : ℚ) (a : Song)
    (ha : songs.head? = some a) (hq : q < a.start) :
    syncIndexToTime (.fin q) (some stream) s = (Ctx.before, { s with rIdx := 0 }) := by
  cases songs with
  | nil => simp at ha
  | cons s0 rest =>
    simp only [List.head?_cons, Option.some.injEq] at ha
    have hq0 : q < s0.start := by
      rw [ha]
      exact hq
    have hfind : findIdxJS (insideSong (.fin q)) (s0 :: rest) = Option.none := by
      apply findIdxJS_none
      intro b hb
      obtain ⟨k, hk⟩ := List.mem_iff_getElem?.mp hb
      have hstart : s0.start ≤ b.start := by
        cases k with
        | zero =>
          simp only [List.getElem?_cons_zero, Option.some.injEq] at hk
          rw [← hk]
        | succ n =>
          have h1 : s0.stop ≤ b.start :=
            songsWF_le _ hwf 0 (n + 1) (by omega) s0 b (by simp) hk
          have h2 : s0.start < s0.stop := songsWF_mem _ hwf 0 s0 (by simp)
          linarith
      exact insideSong_false_left q b (by linarith)
    rw [syncIndexToTime_songs (.fin q) stream s0 rest hs s]
    have hlt : (JNum.fin q).ltQ s0.start = true := by
      rw [JNum.ltQ_fin]
      exact decide_eq_true hq0
    simp [JNum.isFiniteB_fin, hfind, hlt]

theorem sync_after (s : PlayerCore) (stream : Stream) (songs : List Song)
    (hs : stream.songs = some songs) (hwf : SongsWF songs) (q : ℚ) (a : Song)
    (ha : songs.getLast? = some a) (hq : a.stop ≤ q) :
    syncIndexToTime (.fin q) (some stream) s =
      (Ctx.after, { s with rIdx := ((songs.length - 1 : ℕ) : ℚ) }) := by
  cases songs with
  | nil => simp at ha
  | cons s0 rest =>
    have haIdx : (s0 :: rest)[(s0 :: rest).length - 1]? = some a := by
      rw [← List.getLast?_eq_getElem?]
      exact ha
    have hfind : findIdxJS (insideSong (.fin q)) (s0 :: rest) = Option.none := by
      apply findIdxJS_none
      intro b hb
      obtain ⟨k, hk⟩ := List.mem_iff_getElem?.mp hb
      have hkl : k < (s0 :: rest).length := getElem?_lt_length _ _ _ hk
      have hble : b.stop ≤ q := by
        rcases Nat.lt_or_ge k ((s0 :: rest).length - 1) with hlt | hge
        · have hba : b.stop ≤ a.start := songsWF_le _ hwf k _ hlt b a hk haIdx
          have haa : a.start < a.stop := songsWF_mem _ hwf _ a haIdx
          linarith
        · have hkeq : k = (s0 :: rest).length - 1 := by
            simp only [List.length_cons] at hkl hge ⊢
            omega
          rw [hkeq, haIdx, Option.some.injEq] at hk
          exact hk ▸ hq
      exact insideSong_false_right q b hble
    have hs0q : s0.stop ≤ q := by
      rcases Nat.eq_zero_or_pos ((s0 :: rest).length - 1) with h0 | h0
      · rw [h0] at haIdx
        simp only [List.getElem?_cons_zero, Option.some.injEq] at haIdx
        rw [haIdx]
        exact hq
      · have h1 : s0.stop ≤ a.start := songsWF_le _ hwf 0 _ h0 s0 a (by simp) haIdx
        have h2 : a.start < a.stop := songsWF_mem _ hwf _ a haIdx
        linarith
    have hnotlt : (JNum.fin q).ltQ s0.start = false := by
      rw [JNum.ltQ_fin]
      have h2 : s0.start < s0.stop := songsWF_mem _ hwf 0 s0 (by simp)
      exact decide_eq_false (not_lt.mpr (by linarith))
    have hlastD : rest.getLastD s0 = a := by
      have h := getLastD_cons_eq s0 rest
      rw [ha, Option.some.injEq] at h
      exact h.symm
    have hgeq : (JNum.fin q).geQ (rest.getLastD s0).stop = true := by
      rw [hlastD, JNum.geQ_fin]
      exact decide_eq_true hq
    rw [syncIndexToTime_songs (.fin q) stream s0 rest hs s]
    simp only [JNum.isFiniteB_fin, hfind, hnotlt, hgeq]
    simp

theorem sync_gap (s : PlayerCore) (stream : Stream) (songs : List Song)
    (hs : stream.songs = some songs) (hwf : SongsWF songs) (q : ℚ) (i : ℕ) (a b : Song)
    (ha : songs[i]? = some a) (hb : songs[i + 1]? = some b)
    (h1 : a.stop ≤ q) (h2 : q < b.start) :
    syncIndexToTime (.fin q) (some stream) s = (Ctx.gap, { s with rIdx := (i : ℚ) }) := by
  have hastop : a.start < a.stop := songsWF_mem _ hwf _ a ha
  have hbstop : b.start < b.stop := songsWF_mem _ hwf _ b hb
  cases songs with
  | nil => simp at ha
  | cons s0 rest =>
    have hfind : findIdxJS (insideSong (.fin q)) (s0 :: rest) = Option.none := by
      apply findIdxJS_none
      intro c hc
      obtain ⟨k, hk⟩ := List.mem_iff_getElem?.mp hc
      rcases lt_trichotomy k i with hki | hki | hki
      · have hca : c.stop ≤ a.start := songsWF_le _ hwf k i hki c a hk ha
        exact insideSong_false_right q c (by linarith)
      · rw [hki, ha, Option.some.injEq] at hk
        rw [← hk]
        exact insideSong_false_right q a h1
      · have hbc : b.start ≤ c.start := by
          rcases Nat.eq_or_lt_of_le (Nat.succ_le_of_lt hki) with hk1 | hk1
          · rw [← hk1, hb, Option.some.injEq] at hk
            rw [hk]
          · have h3 : b.stop ≤ c.start := songsWF_le _ hwf (i + 1) k hk1 b c hb hk
            linarith
        exact insideSong_false_left q c (by linarith)
    have hnotlt : (JNum.fin q).ltQ s0.start = false := by
      rw [JNum.ltQ_fin]
      have hs0a : s0.start < q := by
        rcases Nat.eq_zero_or_pos i with h0 | h0
        · rw [h0] at ha
          simp only [List.getElem?_cons_zero, Option.some.injEq] at ha
          rw [← ha] at h1 hastop
          linarith
        · have hx : s0.stop ≤ a.start := songsWF_le _ hwf 0 i h0 s0 a (by simp) ha
          have hy : s0.start < s0.stop := songsWF_mem _ hwf 0 s0 (by simp)
          linarith
      exact decide_eq_false (not_lt.mpr (by linarith))
    have hnotge : (JNum.fin q).geQ (rest.getLastD s0).stop = false := by
      rw [JNum.geQ_fin]
      have hlastIdx : (s0 :: rest)[(s0 :: rest).length - 1]? = some (rest.getLastD s0) := by
        rw [← List.getLast?_eq_getElem?]
        exact getLastD_cons_eq s0 rest
      have hlast : q < (rest.getLastD s0).stop := by
        have hb1 : i + 1 < (s0 :: rest).length := getElem?_lt_length _ _ _ hb
        rcases Nat.lt_or_ge (i + 1) ((s0 :: rest).length - 1) with hlt | hge
        · have hx : b.stop ≤ (rest.getLastD s0).start :=
            songsWF_le _ hwf (i + 1) _ hlt b _ hb hlastIdx
          have hy := songsWF_mem _ hwf _ _ hlastIdx
          linarith
        · have hkeq : i + 1 = (s0 :: rest).length - 1 := by
            simp only [List.length_cons] at hb1 hge ⊢
            omega
          rw [hkeq, hlastIdx, Option.some.injEq] at hb
          rw [hb]
          linarith
      exact decide_eq_false (not_le.mpr hlast)
    have hgap : gapScan (.fin q) (s0 :: rest) = some i := by
      apply gapScan_of_min _ _ _ a b ha hb
      · rw [JNum.geQ_fin, JNum.ltQ_fin, decide_eq_true h1, decide_eq_true h2]
        rfl
      · intro k a2 b2 hk hk1 hk2
        have hb2q : b2.start ≤ q := by
          rcases Nat.lt_or_ge (k + 1) i with hl | hge2
          · have hx : b2.stop ≤ a.start := songsWF_le _ hwf (k + 1) i hl b2 a hk2 ha
            have hy := songsWF_mem _ hwf _ _ hk2
            linarith
          · have he2 : k + 1 = i := by omega
            rw [he2, ha, Option.some.injEq] at hk2
            rw [← hk2]
            linarith
        have hd : (JNum.fin q).ltQ b2.start = false := by
          rw [JNum.ltQ_fin]
          exact decide_eq_false (not_lt.mpr hb2q)
        rw [hd]
        exact Bool.and_false _
    rw [syncIndexToTime_songs (.fin q) stream s0 rest hs s]
    simp only [JNum.isFiniteB_fin, hfind, hnotlt, hnotge, hgap]
    simp

/-- C1: For every stream with a non-empty songs list (stated via the
`head?`/`getLast?`/indexing hypotheses) and every finite time `q`, the
Time Sync classification `_syncIndexToTime` returns `inside` with index i
when q lies in [start_i, end_i), `before` with index 0 when q < start_0,
`after` with the last index when q ≥ end_last, and `gap` with the
preceding index i when q lies between end_i and start_{i+1}; the engine's
`rIdx` is set to the returned index (visible in the returned state); for
a stream with no songs it returns `none` and leaves the state unchanged.
Songs are assumed well-formed per the §3 data-model invariant. -/
theorem syncIndexToTime_classification (s : PlayerCore) (stream : Stream)
    (songs : List Song) (hs : stream.songs = some songs) (hwf : SongsWF songs) (q : ℚ) :
    (∀ (i : ℕ) (a : Song), songs[i]? = some a → a.start ≤ q → q < a.stop →
      syncIndexToTime (.fin q) (some stream) s = (Ctx.inside, { s with rIdx := (i : ℚ) }))
    ∧ (∀ a : Song, songs.head? = some a → q < a.start →
      syncIndexToTime (.fin q) (some stream) s = (Ctx.before, { s with rIdx := 0 }))
    ∧ (∀ a : Song, songs.getLast? = some a → a.stop ≤ q →
      syncIndexToTime (.fin q) (some stream) s =
        (Ctx.after, { s with rIdx := ((songs.length - 1 : ℕ) : ℚ) }))
    ∧ (∀ (i : ℕ) (a b : Song), songs[i]? = some a → songs[i + 1]? = some b → a.stop ≤ q → q < b.start →
      syncIndexToTime (.fin q) (some stream) s = (Ctx.gap, { s with rIdx := (i : ℚ) }))
    ∧ (∀ stream2 : Stream, stream2.songs = Option.none →
      syncIndexToTime (.fin q) (some stream2) s = (Ctx.none, s)) :=
  ⟨fun i a ha h1 h2 => sync_inside s stream songs hs hwf q i a ha h1 h2,
   fun a ha hq => sync_before s stream songs hs hwf q a ha hq,
   fun a ha hq => sync_after s stream songs hs hwf q a ha hq,
   fun i a b ha hb h1 h2 => sync_gap s stream songs hs hwf q i a b ha hb h1 h2,
   fun stream2 h => sync_noSongs _ stream2 h s⟩

/-! ### `normalizeResumeTime` (claim C3) -/

theorem normScan_nil (time : ℚ) (total : ℕ) (s : PlayerCore) (j : ℕ) :
    normScan time total s [] j = (time, { s with rIdx := ((total - 1 : ℕ) : ℚ) }) := rfl

theorem normScan_head_inside (time : ℚ) (total : ℕ) (s : PlayerCore) (a : Song)
    (tl : List Song) (j : ℕ) (h1 : a.start ≤ time) (h2 : time < a.stop) :
    normScan time total s (a :: tl) j = (time, { s with rIdx := (j : ℚ) }) := by
  simp [normScan, h1, h2]

theorem normScan_head_gap (time : ℚ) (total : ℕ) (s : PlayerCore) (a b : Song)
    (tl : List Song) (j : ℕ) (hn : ¬(a.start ≤ time ∧ time < a.stop))
    (h1 : a.stop ≤ time) (h2 : time < b.start) :
    normScan time total s (a :: b :: tl) j =
      (b.start, { s with rIdx := ((j + 1 : ℕ) : ℚ) }) := by
  simp [normScan, hn, h1, h2]

/-- Skipped prefixes: if neither the in-song nor the gap test fires below
index `i`, the loop of `normalizeResumeTime` behaves like starting at the
`i`-th song. -/
theorem normScan_at (time : ℚ) (total : ℕ) (s : PlayerCore) (l : List Song) (off i : ℕ)
    (hskipIn : ∀ k c, k < i → l[k]? = some c → ¬(c.start ≤ time ∧ time < c.stop))
    (hskipGap : ∀ k c d, k < i → l[k]? = some c → l[k + 1]? = some d →
      ¬(c.stop ≤ time ∧ time < d.start)) :
    normScan time total s l off = normScan time total s (l.drop i) (off + i) := by
  induction i generalizing l off with
  | zero => simp
  | succ n ih =>
    cases l with
    | nil => simp [normScan_nil]
    | cons a tl =>
      have hin0 : ¬(a.start ≤ time ∧ time < a.stop) :=
        hskipIn 0 a (by omega) (by simp)
      cases tl with
      | nil =>
        simp only [normScan, if_neg hin0]
        simp [normScan_nil]
      | cons b tl2 =>
        have hgap0 : ¬(a.stop ≤ time ∧ time < b.start) :=
          hskipGap 0 a b (by omega) (by simp) (by simp)
        have hstep : normScan time total s (a :: b :: tl2) off =
            normScan time total s (b :: tl2) (off + 1) := by
          simp [normScan, hin0, hgap0]
        rw [hstep, ih (b :: tl2) (off + 1)
          (fun k c hk hkc => hskipIn (k + 1) c (by omega) (by simpa using hkc))
          (fun k c d hk hkc hkd =>
            hskipGap (k + 1) c d (by omega) (by simpa using hkc) (by simpa using hkd))]
        simp only [List.drop_succ_cons]
        congr 1
        omega

/-- Reformulation of `normalizeResumeTime` for a finite input on a
non-Rule-0 stream in standard mode. -/
theorem normalizeResumeTime_fin (q : ℚ) (s : PlayerCore) (stream : Stream)
    (s0 : Song) (rest : List Song) (hcur : getCurrentStream s = some stream)
    (hs : stream.songs = some (s0 :: rest)) (hyap : s.yapMode = false) :
    normalizeResumeTime (some (.fin q)) s =
      (if (if q < 0 then 0 else q) < s0.start then
        some ((if q < 0 then 0 else q), { s with rIdx := 0 })
       else some (normScan (if q < 0 then 0 else q) (s0 :: rest).length s (s0 :: rest) 0)) := by
  simp [normalizeResumeTime, hcur, hs, hyap]

/-- Reformulation of `normalizeResumeTime` for a non-finite input (NaN,
±Infinity): the time is clamped to 0 before the scan. -/
theorem normalizeResumeTime_nonfin (tj : JNum) (hnf : tj.isFiniteB = false)
    (s : PlayerCore) (stream : Stream) (s0 : Song) (rest : List Song)
    (hcur : getCurrentStream s = some stream) (hs : stream.songs = some (s0 :: rest))
    (hyap : s.yapMode = false) :
    normalizeResumeTime (some tj) s =
      (if (0 : ℚ) < s0.start then some ((0 : ℚ), { s with rIdx := 0 })
       else some (normScan 0 (s0 :: rest).length s (s0 :: rest) 0)) := by
  cases tj with
  | fin q => simp [JNum.isFiniteB] at hnf
  | nan => simp [normalizeResumeTime, hcur, hs, hyap]
  | posInf => simp [normalizeResumeTime, hcur, hs, hyap]
  | negInf => simp [normalizeResumeTime, hcur, hs, hyap]

/-- The scan at time 0 on a well-formed song list whose first song starts
at a non-negative time resolves to time 0 with `rIdx = 0`. -/
theorem normalizeResumeTime_zero_out (s : PlayerCore) (s0 : Song) (rest : List Song)
    (hwf : SongsWF (s0 :: rest)) (h0 : 0 ≤ s0.start) :
    (if (0 : ℚ) < s0.start then some ((0 : ℚ), { s with rIdx := 0 })
     else some (normScan 0 (s0 :: rest).length s (s0 :: rest) 0)) =
      some ((0 : ℚ), { s with rIdx := (0 : ℚ) }) := by
  rcases lt_or_eq_of_le h0 with hpos | heq
  · rw [if_pos hpos]
  · rw [if_neg (by rw [← heq]; exact lt_irrefl 0)]
    rw [normScan_head_inside 0 _ s s0 rest 0 (le_of_eq heq.symm)
      (by have := songsWF_mem _ hwf 0 s0 (by simp); linarith)]
    simp

theorem getElem_eq_of_getElem? {α : Type} (l : List α) (k : ℕ) (c : α)
    (h : l[k]? = some c) : getElem l k (getElem?_lt_length l k c h) = c := by
  have h2 := List.getElem?_eq_getElem (getElem?_lt_length l k c h)
  rw [h] at h2
  exact ((Option.some.injEq _ _).mp h2).symm

/-- C3: For every non-Rule-0 stream in standard (non-yap) mode:
`normalizeResumeTime(t)` with t in a gap between end_i and start_{i+1}
returns exactly start_{i+1} and sets rIdx = i+1; negative or non-finite
input is clamped to 0 (rIdx = 0); a time inside song i or before the
first song is returned unchanged with rIdx updated accordingly; a time
past the stream end is returned unchanged with rIdx pinned to the last
song.  Songs are assumed well-formed per the §3 data-model invariant
(ascending, non-overlapping, first start non-negative where needed). -/
theorem normalizeResumeTime_spec (s : PlayerCore) (stream : Stream) (songs : List Song)
    (hcur : getCurrentStream s = some stream) (hs : stream.songs = some songs)
    (hyap : s.yapMode = false) (hwf : SongsWF songs) :
    (∀ (i : ℕ) (a b : Song) (q : ℚ), 0 ≤ q → songs[i]? = some a → songs[i + 1]? = some b →
      a.stop ≤ q → q < b.start →
      normalizeResumeTime (some (.fin q)) s =
        some (b.start, { s with rIdx := ((i + 1 : ℕ) : ℚ) }))
    ∧ (∀ s0 : Song, songs.head? = some s0 → 0 ≤ s0.start →
      (∀ tj : JNum, tj.isFiniteB = false →
        normalizeResumeTime (some tj) s = some (0, { s with rIdx := (0 : ℚ) }))
      ∧ (∀ q : ℚ, q < 0 →
        normalizeResumeTime (some (.fin q)) s = some (0, { s with rIdx := (0 : ℚ) })))
    ∧ (∀ (i : ℕ) (a : Song) (q : ℚ), 0 ≤ q → songs[i]? = some a → a.start ≤ q → q < a.stop →
      normalizeResumeTime (some (.fin q)) s = some (q, { s with rIdx := (i : ℚ) }))
    ∧ (∀ (s0 : Song) (q : ℚ), 0 ≤ q → songs.head? = some s0 → q < s0.start →
      normalizeResumeTime (some (.fin q)) s = some (q, { s with rIdx := 0 }))
    ∧ (∀ (a : Song) (q : ℚ), 0 ≤ q → songs.getLast? = some a → a.stop ≤ q →
      normalizeResumeTime (some (.fin q)) s =
        some (q, { s with rIdx := ((songs.length - 1 : ℕ) : ℚ) })) := by
  cases songs with
  | nil =>
    refine ⟨?_, ?_, ?_, ?_, ?_⟩
    · intro i a b q _ ha _ _ _
      simp at ha
    · intro s0 h0
      simp at h0
    · intro i a q _ ha _ _
      simp at ha
    · intro s0 q _ h0 _
      simp at h0
    · intro a q _ h0 _
      simp at h0
  | cons s0 rest =>
    have hlen : ∀ (k : ℕ) (c : Song), (s0 :: rest)[k]? = some c → k < (s0 :: rest).length :=
      fun k c h => getElem?_lt_length _ k c h
    refine ⟨?_, ?_, ?_, ?_, ?_⟩
    · -- gap: advance to the next song's start
      intro i a b q hq0 ha hb h1 h2
      have hastart := songsWF_mem _ hwf i a ha
      have hs0lt : s0.start < q := by
        rcases Nat.eq_zero_or_pos i with hi0 | hip
        · rw [hi0] at ha
          simp only [List.getElem?_cons_zero, Option.some.injEq] at ha
          rw [ha]
          linarith
        · have hx : s0.stop ≤ a.start := songsWF_le _ hwf 0 i hip s0 a (by simp) ha
          have hy := songsWF_mem _ hwf 0 s0 (by simp)
          linarith
      have hskipIn : ∀ (k : ℕ) (c : Song), k < i → (s0 :: rest)[k]? = some c →
          ¬(c.start ≤ q ∧ q < c.stop) := by
        intro k c hk hkc hcon
        have hx : c.stop ≤ a.start := songsWF_le _ hwf k i hk c a hkc ha
        linarith [hcon.2]
      have hskipGap : ∀ (k : ℕ) (c d : Song), k < i → (s0 :: rest)[k]? = some c →
          (s0 :: rest)[k + 1]? = some d → ¬(c.stop ≤ q ∧ q < d.start) := by
        intro k c d hk hkc hkd hcon
        rcases Nat.lt_or_ge (k + 1) i with hl | hg
        · have hx : d.stop ≤ a.start := songsWF_le _ hwf (k + 1) i hl d a hkd ha
          have hy := songsWF_mem _ hwf _ d hkd
          linarith [hcon.2]
        · have he : k + 1 = i := by omega
          rw [he, ha, Option.some.injEq] at hkd
          rw [← hkd] at hcon
          linarith [hcon.2]
      rw [normalizeResumeTime_fin q s stream s0 rest hcur hs hyap,
        if_neg (not_lt.mpr hq0), if_neg (not_lt.mpr (le_of_lt hs0lt)),
        normScan_at q _ s (s0 :: rest) 0 i hskipIn hskipGap,
        List.drop_eq_getElem_cons (hlen i a ha), getElem_eq_of_getElem? _ i a ha,
        List.drop_eq_getElem_cons (hlen (i + 1) b hb), getElem_eq_of_getElem? _ (i + 1) b hb,
        normScan_head_gap q _ s a b _ (0 + i) (by intro hcon; linarith [hcon.2]) h1 h2]
      simp
    · -- clamp: negative or non-finite resolves to 0 with rIdx = 0
      intro s0x h0 hnn
      simp only [List.head?_cons, Option.some.injEq] at h0
      have hnn0 : 0 ≤ s0.start := by
        rw [h0]
        exact hnn
      constructor
      · intro tj hnf
        rw [normalizeResumeTime_nonfin tj hnf s stream s0 rest hcur hs hyap]
        exact normalizeResumeTime_zero_out s s0 rest hwf hnn0
      · intro q hqneg
        rw [normalizeResumeTime_fin q s stream s0 rest hcur hs hyap, if_pos hqneg]
        exact normalizeResumeTime_zero_out s s0 rest hwf hnn0
    · -- inside song i: time unchanged, rIdx updated
      intro i a q hq0 ha h1 h2
      have hs0 : ¬(q < s0.start) := by
        rcases Nat.eq_zero_or_pos i with hi0 | hip
        · rw [hi0] at ha
          simp only [List.getElem?_cons_zero, Option.some.injEq] at ha
          exact not_lt.mpr (by rw [ha]; exact h1)
        · have hx := songsWF_le _ hwf 0 i hip s0 a (by simp) ha
          have hy := songsWF_mem _ hwf 0 s0 (by simp)
          exact not_lt.mpr (by linarith)
      have hskipIn : ∀ (k : ℕ) (c : Song), k < i → (s0 :: rest)[k]? = some c →
          ¬(c.start ≤ q ∧ q < c.stop) := by
        intro k c hk hkc hcon
        have hx : c.stop ≤ a.start := songsWF_le _ hwf k i hk c a hkc ha
        linarith [hcon.2]
      have hskipGap : ∀ (k : ℕ) (c d : Song), k < i → (s0 :: rest)[k]? = some c →
          (s0 :: rest)[k + 1]? = some d → ¬(c.stop ≤ q ∧ q < d.start) := by
        intro k c d hk hkc hkd hcon
        rcases Nat.lt_or_ge (k + 1) i with hl | hg
        · have hx : d.stop ≤ a.start := songsWF_le _ hwf (k + 1) i hl d a hkd ha
          have hy := songsWF_mem _ hwf _ d hkd
          linarith [hcon.2]
        · have he : k + 1 = i := by omega
          rw [he, ha, Option.some.injEq] at hkd
          rw [← hkd] at hcon
          linarith [hcon.2]
      rw [normalizeResumeTime_fin q s stream s0 rest hcur hs hyap,
        if_neg (not_lt.mpr hq0), if_neg hs0,
        normScan_at q _ s (s0 :: rest) 0 i hskipIn hskipGap,
        List.drop_eq_getElem_cons (hlen i a ha), getElem_eq_of_getElem? _ i a ha,
        normScan_head_inside q _ s a _ (0 + i) h1 h2]
      simp
    · -- before the first song: time unchanged, rIdx = 0
      intro s0x q hq0 h0 hlt
      simp only [List.head?_cons, Option.some.injEq] at h0
      rw [normalizeResumeTime_fin q s stream s0 rest hcur hs hyap,
        if_neg (not_lt.mpr hq0), if_pos (by rw [h0]; exact hlt)]
    · -- past the stream end: time unchanged, rIdx pinned to the last song
      intro a q hq0 hlast hstop
      have haIdx : (s0 :: rest)[(s0 :: rest).length - 1]? = some a := by
        rw [← List.getLast?_eq_getElem?]
        exact hlast
      have hs0stop : s0.stop ≤ q := by
        rcases Nat.eq_zero_or_pos ((s0 :: rest).length - 1) with h0 | h0
        · rw [h0] at haIdx
          simp only [List.getElem?_cons_zero, Option.some.injEq] at haIdx
          rw [haIdx]
          exact hstop
        · have hx : s0.stop ≤ a.start := songsWF_le _ hwf 0 _ h0 s0 a (by simp) haIdx
          have hy := songsWF_mem _ hwf _ a haIdx
          linarith
      have hs0 : ¬(q < s0.start) := by
        have := songsWF_mem _ hwf 0 s0 (by simp)
        exact not_lt.mpr (by linarith)
      have hstople : ∀ (k : ℕ) (c : Song), (s0 :: rest)[k]? = some c → c.stop ≤ q := by
        intro k c hkc
        rcases Nat.lt_or_ge k ((s0 :: rest).length - 1) with hl | hg
        · have hx : c.stop ≤ a.start := songsWF_le _ hwf k _ hl c a hkc haIdx
          have hy := songsWF_mem _ hwf _ a haIdx
          linarith
        · have he : k = (s0 :: rest).length - 1 := by
            have := hlen k c hkc
            simp only [List.length_cons] at this hg ⊢
            omega
          rw [he, haIdx, Option.some.injEq] at hkc
          rw [← hkc]
          exact hstop
      have hskipIn : ∀ (k : ℕ) (c : Song), k < (s0 :: rest).length →
          (s0 :: rest)[k]? = some c → ¬(c.start ≤ q ∧ q < c.stop) := by
        intro k c _ hkc hcon
        have := hstople k c hkc
        linarith [hcon.2]
      have hskipGap : ∀ (k : ℕ) (c d : Song), k < (s0 :: rest).length →
          (s0 :: rest)[k]? = some c → (s0 :: rest)[k + 1]? = some d →
          ¬(c.stop ≤ q ∧ q < d.start) := by
        intro k c d _ hkc hkd hcon
        have hx := hstople (k + 1) d hkd
        have hy := songsWF_mem _ hwf _ d hkd
        linarith [hcon.2]
      rw [normalizeResumeTime_fin q s stream s0 rest hcur hs hyap,
        if_neg (not_lt.mpr hq0), if_neg hs0,
        normScan_at q _ s (s0 :: rest) 0 (s0 :: rest).length hskipIn hskipGap,
        List.drop_length, normScan_nil]

/-! ### `prevSong` on Rule 0 streams (claim C4) -/

/-- C4 (amended): for a Rule 0 stream (no songs), `prevSong(t)` restarts
the current position (a seek action back to the stream's default start)
when t is MORE than the restart threshold (5 seconds) past the start;
within the threshold it seeks back to the start under Loop-Stream and
otherwise jumps to the previous stream (a load action via
`jumpToPreviousStreamEnd`).  The original claim stated the threshold
comparison the other way around. -/
theorem prevSong_rule0_spec (s : PlayerCore) (stream : Stream) (t : JNum) (c : ℕ)
    (hcur : getCurrentStream s = some stream) (hsongs : stream.songs = Option.none) :
    ((t.subQ (getStreamDefaultStart (some stream))).gtQ RESTART_THRESHOLD_SECONDS = true →
      prevSong t c s = some (s, Action.seek (getStreamDefaultStart (some stream))))
    ∧ ((t.subQ (getStreamDefaultStart (some stream))).gtQ RESTART_THRESHOLD_SECONDS = false →
      s.loopMode = LOOP_STREAM →
      prevSong t c s = some (s, Action.seek (getStreamDefaultStart (some stream))))
    ∧ ((t.subQ (getStreamDefaultStart (some stream))).gtQ RESTART_THRESHOLD_SECONDS = false →
      s.loopMode ≠ LOOP_STREAM →
      prevSong t c s = some (jumpToPreviousStreamEnd c s)) := by
  have hsync := sync_noSongs t stream hsongs s
  refine ⟨fun h1 => ?_, fun h1 h2 => ?_, fun h1 h2 => ?_⟩
  · simp [prevSong, hcur, hsync, hsongs, h1]
  · simp [prevSong, hcur, hsync, hsongs, h1, h2]
  · simp [prevSong, hcur, hsync, hsongs, h1, h2]

/-! ### The yap suffix in status text (claim C5) -/

theorem gapStatusLoop_shape (t : JNum) (suffix : String) (total : ℕ) :
    ∀ (l : List Song) (i : ℕ),
      gapStatusLoop t suffix total l i = Option.none ∨
      ∃ b, gapStatusLoop t suffix total l i = some (b ++ suffix) := by
  intro l
  induction l with
  | nil =>
    intro i
    left
    rfl
  | cons a tl ih =>
    intro i
    cases tl with
    | nil =>
      left
      rfl
    | cons b tl2 =>
      by_cases hc : (t.geQ a.stop && t.ltQ b.start) = true
      · right
        refine ⟨"Next: " ++ b.name ++ " " ++ "(" ++ toString (i + 2) ++ "/" ++
          toString total ++ ")", ?_⟩
        simp [gapStatusLoop, hc]
      · have hstep : gapStatusLoop t suffix total (a :: b :: tl2) i =
            gapStatusLoop t suffix total (b :: tl2) (i + 1) := by
          simp [gapStatusLoop, hc]
        rw [hstep]
        exact ih (i + 1)

theorem getGapStatus_shape (t : JNum) (s0 : Song) (rest : List Song) (suffix : String)
    (s : PlayerCore) :
    getGapStatus t (s0 :: rest) suffix s = some Option.none ∨
    (∃ b, getGapStatus t (s0 :: rest) suffix s = some (some (b ++ suffix))) ∨
    getGapStatus t (s0 :: rest) suffix s = some (some "Stream Ending...") := by
  rcases hloop : gapStatusLoop t suffix (s0 :: rest).length (s0 :: rest) 0 with _ | g
  · simp only [getGapStatus]
    rw [hloop]
    split_ifs with h1 h2 h3
    · left
      rfl
    · right
      left
      exact ⟨"Next: " ++ s0.name ++ " " ++ "(1/" ++ toString (s0 :: rest).length ++ ")", rfl⟩
    · right
      right
      rfl
    · left
      rfl
  · rcases gapStatusLoop_shape t suffix (s0 :: rest).length (s0 :: rest) 0 with hl2 | ⟨b, hl2⟩
    · rw [hloop] at hl2
      exact Option.noConfusion hl2
    · rw [hloop] at hl2
      injection hl2 with hg
      simp only [getGapStatus]
      rw [hloop]
      split_ifs with h1 h2 h3
      · left
        rfl
      · right
        left
        exact ⟨"Next: " ++ s0.name ++ " " ++ "(1/" ++ toString (s0 :: rest).length ++ ")", rfl⟩
      · right
        left
        exact ⟨b, by rw [hg]⟩
      · right
        left
        exact ⟨b, by rw [hg]⟩

/-- C5 (amended): whenever yapMode is on and a current stream exists (and
its song list is not the degenerate `some []`, which `init` never
produces), `getStatusText` appends " with Yapping" in every branch except
the past-the-end branch, which returns the bare "Stream Ending...".  The
original claim asserted the suffix in the past-the-end branch as well. -/
theorem getStatusText_yap_suffix (s : PlayerCore) (t : JNum) (stream : Stream)
    (hcur : getCurrentStream s = some stream) (hy : s.yapMode = true)
    (hne : stream.songs ≠ some ([] : List Song)) :
    (∃ base, getStatusText t s = some (base ++ " with Yapping"))
    ∨ getStatusText t s = some "Stream Ending..." := by
  rcases hsongs : stream.songs with _ | songs
  · left
    refine ⟨(if stream.title = "" then "Unknown Video" else stream.title) ++ " (1/1)", ?_⟩
    simp [getStatusText, hcur, hsongs, hy]
  · cases songs with
    | nil => exact absurd hsongs hne
    | cons s0 rest =>
      rcases getGapStatus_shape t s0 rest " with Yapping" s with hsh | ⟨b, hsh⟩ | hsh
      · left
        refine ⟨(getActiveSongDisplayInfo t (s0 :: rest) s).2.1 ++ " (" ++
          toString ((getActiveSongDisplayInfo t (s0 :: rest) s).2.2 + 1) ++ "/" ++
          toString (s0 :: rest).length ++ ")", ?_⟩
        simp [getStatusText, hcur, hsongs, hy, hsh]
      · left
        exact ⟨b, by simp [getStatusText, hcur, hsongs, hy, hsh]⟩
      · right
        simp [getStatusText, hcur, hsongs, hy, hsh]

/-! ### Round-trip navigation (claim C7) -/

theorem hist_getLast_push (l : List HistEntry) (e : HistEntry) :
    (if HISTORY_LIMIT < (l ++ [e]).length then (l ++ [e]).drop 1 else l ++ [e]).getLast? =
      some e := by
  split_ifs with h
  · have hl : 1 ≤ l.length := by
      simp only [List.length_append, List.length_cons, List.length_nil, HISTORY_LIMIT] at h
      omega
    rw [List.drop_append_of_le_length hl, List.getLast?_concat]
  · exact List.getLast?_concat _

theorem prevStream_pop_vIdx (c2 : ℕ) (s1 : PlayerCore) (e : HistEntry)
    (hl : s1.history.getLast? = some e) :
    (prevStream false c2 s1).vIdx = e.vIdx := by
  simp only [prevStream, Bool.false_and, Bool.false_eq_true, if_false, hl]
  rcases hcs : getCurrentStream { s1 with history := s1.history.dropLast, vIdx := e.vIdx }
    with _ | st
  · simp [hcs]
  · rcases hsongs : st.songs with _ | songs
    · simp [hcs, hsongs]
    · cases songs with
      | nil => simp [hcs, hsongs]
      | cons a tl => simp [hcs, hsongs]

/-- C7: with shuffle off, `nextStream()` followed immediately by
`prevStream()` returns `vIdx` to its original value (also at the
wraparound ends): `nextStream` pushes a history entry recording the
current `vIdx` which `prevStream` pops and restores. -/
theorem nextStream_prevStream_roundtrip (s : PlayerCore) (c c2 : ℕ)
    (hsh : s.shuffleMode = false) (s1 : PlayerCore) (hn : nextStream c s = some s1) :
    (prevStream false c2 s1).vIdx = s.vIdx := by
  simp only [nextStream, Option.map_eq_some'] at hn
  obtain ⟨sp, hp, hs1⟩ := hn
  simp only [pushHistory] at hp
  rcases hpos : getHistoryPosition (getCurrentStream s) s with _ | pos
  · rw [hpos] at hp
    exact Option.noConfusion hp
  · rw [hpos] at hp
    injection hp with hp
    subst hp
    subst hs1
    exact prevStream_pop_vIdx c2 _ (⟨s.vIdx, s.rIdx, some pos⟩ : HistEntry)
      (hist_getLast_push s.history ⟨s.vIdx, s.rIdx, some pos⟩)

/-! ### History bound (claim C8) -/

/-- One `nextStream` or `prevStream` call (crashing calls step nowhere). -/
inductive StepNP : PlayerCore → PlayerCore → Prop where
  | next {s s2 : PlayerCore} (c : ℕ) (h : nextStream c s = some s2) : StepNP s s2
  | prev {s : PlayerCore} (skip : Bool) (c : ℕ) : StepNP s (prevStream skip c s)

/-- States reachable from some `init` result by `nextStream`/`prevStream`
calls. -/
def ReachableNP (s2 : PlayerCore) : Prop :=
  ∃ seg saved ph s0, init seg saved ph mkCore = some s0 ∧
    Relation.ReflTransGen StepNP s0 s2

theorem restoreHistory_le (ph : Option JVal) (h : List HistEntry)
    (hr : restoreHistory ph = some h) : h.length ≤ HISTORY_LIMIT := by
  rcases ph with _ | v
  · simp only [restoreHistory, Option.some.injEq] at hr
    rw [← hr]
    simp [HISTORY_LIMIT]
  · cases v with
    | jarr items =>
      simp only [restoreHistory, Option.some.injEq] at hr
      rw [← hr]
      split_ifs with h20
      · rw [List.length_drop]
        omega
      · omega
    | jnull => simp [restoreHistory] at hr
    | jbool b => simp [restoreHistory] at hr
    | jnum q => simp [restoreHistory] at hr
    | jstr str => simp [restoreHistory] at hr
    | jobj fields => simp [restoreHistory] at hr

theorem init_hist_le (seg : List SegmentInput) (saved : StoredSettings) (ph : Option JVal)
    (s0 sI : PlayerCore) (h : init seg saved ph s0 = some sI) :
    sI.history.length ≤ HISTORY_LIMIT := by
  simp only [init, Option.map_eq_some'] at h
  obtain ⟨hh, hr, hs⟩ := h
  rw [← hs]
  exact restoreHistory_le ph hh hr

theorem pushHistory_hist_le (s sp : PlayerCore) (h : pushHistory s = some sp)
    (hs : s.history.length ≤ HISTORY_LIMIT) : sp.history.length ≤ HISTORY_LIMIT := by
  simp only [pushHistory] at h
  rcases hx : getHistoryPosition (getCurrentStream s) s with _ | pos
  · rw [hx] at h
    exact Option.noConfusion h
  · rw [hx] at h
    injection h with h
    rw [← h]
    show (if HISTORY_LIMIT < (s.history ++ [(⟨s.vIdx, s.rIdx, some pos⟩ : HistEntry)]).length
          then (s.history ++ [(⟨s.vIdx, s.rIdx, some pos⟩ : HistEntry)]).drop 1
          else s.history ++ [(⟨s.vIdx, s.rIdx, some pos⟩ : HistEntry)]).length ≤ HISTORY_LIMIT
    split_ifs with h20
    · rw [List.length_drop]
      simp only [List.length_append, List.length_cons, List.length_nil, HISTORY_LIMIT] at *
      omega
    · simp only [List.length_append, List.length_cons, List.length_nil, HISTORY_LIMIT] at *
      omega

/-- `prevStream` either leaves the history alone or pops its last
entry. -/
theorem prevStream_hist (skip : Bool) (c : ℕ) (s : PlayerCore) :
    (prevStream skip c s).history = s.history ∨
    (prevStream skip c s).history = s.history.dropLast := by
  simp only [prevStream]
  by_cases h1 : (skip && s.shuffleMode) = true
  · rw [if_pos h1]
    left
    rfl
  · rw [if_neg h1]
    rcases hl : s.history.getLast? with _ | e
    · simp only [hl]
      by_cases h2 : s.shuffleMode = true
      · rw [if_pos h2]
        left
        rfl
      · rw [if_neg h2]
        left
        rfl
    · simp only [hl]
      rcases hcs : getCurrentStream { s with history := s.history.dropLast, vIdx := e.vIdx }
        with _ | st
      · simp [hcs]
      · rcases hsongs : st.songs with _ | songs
        · simp [hcs, hsongs]
        · cases songs with
          | nil => simp [hcs, hsongs]
          | cons a tl => simp [hcs, hsongs]

theorem stepNP_hist_le (s s2 : PlayerCore) (hstep : StepNP s s2)
    (hs : s.history.length ≤ HISTORY_LIMIT) : s2.history.length ≤ HISTORY_LIMIT := by
  cases hstep with
  | next c hn =>
    simp only [nextStream, Option.map_eq_some'] at hn
    obtain ⟨sp, hp, hs1⟩ := hn
    have hple := pushHistory_hist_le s sp hp hs
    rw [← hs1]
    exact hple
  | prev skip c =>
    rcases prevStream_hist skip c s with h | h
    · rw [h]
      exact hs
    · rw [h, List.length_dropLast]
      exact le_trans (Nat.sub_le _ _) hs

/-- C8: after `init` and any sequence of `nextStream`/`prevStream` calls,
`history.length ≤ 20` (= `HISTORY_LIMIT`) always holds: `pushHistory`
evicts the oldest entry on overflow, `prevStream` only pops, and `init`
truncates a longer restored history to its most recent 20 entries (the
second conjunct). -/
theorem history_bound :
    (∀ s2 : PlayerCore, ReachableNP s2 → s2.history.length ≤ HISTORY_LIMIT)
    ∧ (∀ (ph : Option JVal) (h : List HistEntry), restoreHistory ph = some h →
      h.length ≤ HISTORY_LIMIT) := by
  constructor
  · intro s2 hr
    obtain ⟨seg, saved, ph, s0, hinit, hsteps⟩ := hr
    have h0 : s0.history.length ≤ HISTORY_LIMIT := init_hist_le seg saved ph mkCore s0 hinit
    induction hsteps with
    | refl => exact h0
    | tail hab hbc ih => exact stepNP_hist_le _ _ hbc ih
  · exact restoreHistory_le

/-! ### The rIdx bound invariant (claim C2) -/

/-- The invariant of the claim: `0 ≤ rIdx < max(1, songs.length)` where
`songs` is the current stream's song list. -/
def RIdxInv (s : PlayerCore) : Prop :=
  0 ≤ s.rIdx ∧ s.rIdx < max 1 ((curSongs s).length : ℚ)

theorem rIdxInv_of_zero (s : PlayerCore) (h : s.rIdx = 0) : RIdxInv s := by
  constructor
  · rw [h]
  · rw [h]
    exact lt_of_lt_of_le one_pos (le_max_left _ _)

theorem rIdxInv_of_natIdx (s : PlayerCore) (i : ℕ) (h : s.rIdx = (i : ℚ))
    (hlt : i < (curSongs s).length) : RIdxInv s := by
  constructor
  · rw [h]
    exact Nat.cast_nonneg i
  · rw [h]
    have h1 : (i : ℚ) < ((curSongs s).length : ℚ) := by exact_mod_cast hlt
    exact lt_of_lt_of_le h1 (le_max_right _ _)

theorem curSongs_eq (s : PlayerCore) (stream : Stream) (songs : List Song)
    (h1 : getCurrentStream s = some stream) (h2 : stream.songs = some songs) :
    curSongs s = songs := by
  simp [curSongs, h1, h2]

theorem curSongs_set_rIdx (s : PlayerCore) (x : ℚ) :
    curSongs { s with rIdx := x } = curSongs s := rfl

/-- A successful JS array access means the index is a whole number within
bounds. -/
theorem qIdx_natIdx {α : Type} (l : List α) (q : ℚ) (a : α) (h : qIdx l q = some a) :
    ∃ n : ℕ, q = (n : ℚ) ∧ n < l.length ∧ l[n]? = some a := by
  simp only [qIdx] at h
  split_ifs at h with hc
  · obtain ⟨hden, hnum⟩ := hc
    rw [List.get?_eq_getElem?] at h
    refine ⟨q.num.toNat, ?_, getElem?_lt_length _ _ _ h, h⟩
    have hq : (q.num : ℚ) = q := by
      have hdd := Rat.num_div_den q
      rw [hden] at hdd
      simpa using hdd
    rw [← hq]
    exact_mod_cast (Int.toNat_of_nonneg hnum).symm

/-- `_syncIndexToTime` either leaves the state unchanged or overwrites
`rIdx` with a whole index into the given stream's song list. -/
theorem syncIndexToTime_cases (t : JNum) (stream : Stream) (s : PlayerCore) :
    (syncIndexToTime t (some stream) s).2 = s ∨
    ∃ (songs : List Song) (i : ℕ), stream.songs = some songs ∧ i < songs.length ∧
      (syncIndexToTime t (some stream) s).2 = { s with rIdx := (i : ℚ) } := by
  rcases hs : stream.songs with _ | songs
  · left
    simp [syncIndexToTime, hs]
  · cases songs with
    | nil =>
      left
      simp [syncIndexToTime, hs]
    | cons s0 rest =>
      by_cases hf : t.isFiniteB = false
      · left
        simp [syncIndexToTime, hs, hf]
      · rcases hfind : findIdxJS (insideSong t) (s0 :: rest) with _ | i
        · by_cases hlt : t.ltQ s0.start = true
          · right
            refine ⟨s0 :: rest, 0, rfl, by simp, ?_⟩
            simp [syncIndexToTime, hs, hf, hfind, hlt]
          · by_cases hge : t.geQ (rest.getLast?.getD s0).stop = true
            · right
              refine ⟨s0 :: rest, (s0 :: rest).length - 1, rfl,
                by simp only [List.length_cons]; omega, ?_⟩
              simp [syncIndexToTime, hs, hf, hfind, hlt, hge]
            · rcases hgap : gapScan t (s0 :: rest) with _ | i
              · left
                simp [syncIndexToTime, hs, hf, hfind, hlt, hge, hgap]
              · right
                have hb := gapScan_bound t (s0 :: rest) i hgap
                refine ⟨s0 :: rest, i, rfl, by omega, ?_⟩
                simp [syncIndexToTime, hs, hf, hfind, hlt, hge, hgap]
        · right
          have hb := findIdxJS_bound _ _ _ hfind
          exact ⟨s0 :: rest, i, rfl, hb, by simp [syncIndexToTime, hs, hf, hfind]⟩

/-- Writing a value clamped into `[0, len-1]` of the current (non-empty)
song list reestablishes the bound. -/
theorem rIdxInv_set_clamp (s1 : PlayerCore) (r : ℚ) (a : Song) (tl : List Song)
    (hcur : curSongs s1 = a :: tl) :
    RIdxInv { s1 with rIdx := jsMin (jsMax r 0) (((a :: tl).length : ℚ) - 1) } := by
  have hmax0 : (0 : ℚ) ≤ jsMax r 0 := by
    rw [jsMax]
    split_ifs with h
    · exact le_refl 0
    · exact le_of_not_le h
  have hlen : (1 : ℚ) ≤ ((a :: tl).length : ℚ) := by
    have h1 : 1 ≤ (a :: tl).length := by simp
    exact_mod_cast h1
  have hle : jsMin (jsMax r 0) (((a :: tl).length : ℚ) - 1) ≤ ((a :: tl).length : ℚ) - 1 := by
    rw [jsMin]
    split_ifs with h
    · exact h
    · exact le_refl _
  have hge : (0 : ℚ) ≤ jsMin (jsMax r 0) (((a :: tl).length : ℚ) - 1) := by
    rw [jsMin]
    split_ifs with h
    · exact hmax0
    · linarith
  constructor
  · exact hge
  · have hcur2 :
        curSongs { s1 with rIdx := jsMin (jsMax r 0) (((a :: tl).length : ℚ) - 1) } = a :: tl := by
      rw [curSongs_set_rIdx]
      exact hcur
    rw [hcur2]
    have hlt : jsMin (jsMax r 0) (((a :: tl).length : ℚ) - 1) < ((a :: tl).length : ℚ) := by
      linarith
    exact lt_of_lt_of_le hlt (le_max_right _ _)

/-- `prevStream` always reestablishes the bound, whatever the incoming
state: every branch writes 0 or a value clamped into range. -/
theorem prevStream_rIdxInv (skip : Bool) (c : ℕ) (s : PlayerCore) :
    RIdxInv (prevStream skip c s) := by
  simp only [prevStream]
  by_cases h1 : (skip && s.shuffleMode) = true
  · rw [if_pos h1]
    exact rIdxInv_of_zero _ rfl
  · rw [if_neg h1]
    rcases hl : s.history.getLast? with _ | e
    · simp only [hl]
      by_cases h2 : s.shuffleMode = true
      · rw [if_pos h2]
        exact rIdxInv_of_zero _ rfl
      · rw [if_neg h2]
        exact rIdxInv_of_zero _ rfl
    · simp only [hl]
      rcases hcs : getCurrentStream { s with history := s.history.dropLast, vIdx := e.vIdx }
        with _ | st
      · simp only [hcs]
        exact rIdxInv_of_zero _ rfl
      · rcases hsongs : st.songs with _ | songs
        · simp only [hcs, hsongs]
          exact rIdxInv_of_zero _ rfl
        · cases songs with
          | nil =>
            simp only [hcs, hsongs]
            exact rIdxInv_of_zero _ rfl
          | cons a tl =>
            simp only [hcs, hsongs]
            exact rIdxInv_set_clamp { s with history := s.history.dropLast, vIdx := e.vIdx } e.rIdx a tl (curSongs_eq _ st _ hcs hsongs)

theorem rIdxInv_incr (s0 : PlayerCore) (songs : List Song)
    (hcur : curSongs s0 = songs) (hge : 0 ≤ s0.rIdx)
    (hg : s0.rIdx < (songs.length : ℚ) - 1) :
    RIdxInv { s0 with rIdx := s0.rIdx + 1 } := by
  constructor
  · show (0 : ℚ) ≤ s0.rIdx + 1
    linarith
  · show s0.rIdx + 1 < max 1 ((curSongs { s0 with rIdx := s0.rIdx + 1 }).length : ℚ)
    rw [curSongs_set_rIdx, hcur]
    have h1 : s0.rIdx + 1 < (songs.length : ℚ) := by linarith
    exact lt_of_lt_of_le h1 (le_max_right _ _)

theorem rIdxInv_lastIdx (s0 : PlayerCore) (a : Song) (tl : List Song)
    (hcur : curSongs s0 = a :: tl) :
    RIdxInv { s0 with rIdx := ((a :: tl).length : ℚ) - 1 } := by
  refine rIdxInv_of_natIdx _ ((a :: tl).length - 1) ?_ ?_
  · show ((a :: tl).length : ℚ) - 1 = (((a :: tl).length - 1 : ℕ) : ℚ)
    have h1 : 1 ≤ (a :: tl).length := by simp
    rw [Nat.cast_sub h1]
    simp
  · rw [curSongs_set_rIdx, hcur]
    simp only [List.length_cons]
    omega

theorem rIdxInv_decr (s0 : PlayerCore) (songs : List Song) (n : ℕ)
    (hcur : curSongs s0 = songs) (hr : s0.rIdx = (n : ℚ)) (hn : n < songs.length)
    (hpos : 0 < s0.rIdx) :
    RIdxInv { s0 with rIdx := s0.rIdx - 1 } := by
  have h1 : 1 ≤ n := by
    rcases Nat.eq_zero_or_pos n with h0 | h1
    · rw [h0] at hr
      rw [hr] at hpos
      norm_num at hpos
    · exact h1
  refine rIdxInv_of_natIdx _ (n - 1) ?_ ?_
  · show s0.rIdx - 1 = ((n - 1 : ℕ) : ℚ)
    rw [hr, Nat.cast_sub h1]
    simp
  · rw [curSongs_set_rIdx, hcur]
    omega

/-- Syncing preserves the current stream (`rIdx` does not feed the stream
lookup). -/
theorem sync_currentStream (t : JNum) (stream : Stream) (s : PlayerCore) :
    getCurrentStream (syncIndexToTime t (some stream) s).2 = getCurrentStream s := by
  rcases syncIndexToTime_cases t stream s with h | ⟨songs, i, hsongs, hi, h⟩ <;> rw [h] <;> rfl

/-- Syncing against the current stream preserves the bound. -/
theorem sync_rIdxInv (t : JNum) (stream : Stream) (s : PlayerCore)
    (hcs : getCurrentStream s = some stream) (hinv : RIdxInv s) :
    RIdxInv (syncIndexToTime t (some stream) s).2 := by
  rcases syncIndexToTime_cases t stream s with h | ⟨songs, i, hsongs, hi, h⟩
  · rw [h]
    exact hinv
  · rw [h]
    refine rIdxInv_of_natIdx _ i rfl ?_
    rw [curSongs_set_rIdx, curSongs_eq s stream songs hcs hsongs]
    exact hi

theorem nextStream_rIdxInv (c : ℕ) (s s2 : PlayerCore) (h : nextStream c s = some s2) :
    RIdxInv s2 := by
  simp only [nextStream, Option.map_eq_some'] at h
  obtain ⟨s1, hp, hs2⟩ := h
  rw [← hs2]
  exact rIdxInv_of_zero _ rfl

theorem jumpToNextStreamStart_rIdxInv (c : ℕ) (s s2 : PlayerCore) (a : Action)
    (h : jumpToNextStreamStart c s = some (s2, a)) : RIdxInv s2 := by
  simp only [jumpToNextStreamStart, Option.map_eq_some'] at h
  obtain ⟨s1, hn, hpair⟩ := h
  injection hpair with hp1 hp2
  exact hp1 ▸ nextStream_rIdxInv c s s1 hn

theorem jumpToPreviousStreamEnd_rIdxInv (c : ℕ) (s : PlayerCore) :
    RIdxInv (jumpToPreviousStreamEnd c s).1 := by
  simp only [jumpToPreviousStreamEnd]
  rcases hcs : getCurrentStream (prevStream false c s) with _ | prev
  · simp only [hcs]
    exact prevStream_rIdxInv false c s
  · rcases hsongs : prev.songs with _ | songs
    · simp only [hcs, hsongs]
      exact prevStream_rIdxInv false c s
    · cases songs with
      | nil =>
        simp only [hcs, hsongs]
        exact prevStream_rIdxInv false c s
      | cons p0 ps =>
        simp only [hcs, hsongs]
        exact rIdxInv_lastIdx (prevStream false c s) p0 ps
          (curSongs_eq _ prev _ hcs hsongs)

theorem toggleShuffle_rIdxInv (s : PlayerCore) (hinv : RIdxInv s) :
    RIdxInv (toggleShuffle s) := by
  simp only [toggleShuffle]
  split_ifs with h
  · exact hinv
  · exact hinv

theorem advanceAuto_rIdxInv (c : ℕ) (s s2 : PlayerCore) (effs : List Eff)
    (hinv : RIdxInv s) (h : advanceAuto c s = some (s2, effs)) : RIdxInv s2 := by
  simp only [advanceAuto] at h
  by_cases hl : s.loopMode = LOOP_TRACK
  · rw [if_pos hl] at h
    rcases hsong : getCurrentSong s with _ | song
    · simp only [hsong] at h
      exact absurd h (by simp)
    · simp only [hsong] at h
      simp only [Option.some.injEq, Prod.mk.injEq] at h
      exact h.1 ▸ hinv
  · rw [if_neg hl] at h
    rcases hcs : getCurrentStream s with _ | stream
    · simp only [hcs] at h
      exact absurd h (by simp)
    · simp only [hcs] at h
      rcases hsongs : stream.songs with _ | songs
      · simp only [hsongs] at h
        by_cases hls : s.loopMode = LOOP_STREAM
        · rw [if_pos hls] at h
          simp only [Option.some.injEq, Prod.mk.injEq] at h
          exact h.1 ▸ hinv
        · rw [if_neg hls] at h
          simp only [Option.map_eq_some'] at h
          obtain ⟨s1, hn, hpair⟩ := h
          injection hpair with hp1 hp2
          exact hp1 ▸ nextStream_rIdxInv c s s1 hn
      · simp only [hsongs] at h
        by_cases hg : s.rIdx < (songs.length : ℚ) - 1
        · rw [if_pos hg] at h
          simp only [Option.some.injEq, Prod.mk.injEq] at h
          refine h.1 ▸ ?_
          exact rIdxInv_incr s songs (curSongs_eq s stream songs hcs hsongs) hinv.1 hg
        · rw [if_neg hg] at h
          by_cases hls : s.loopMode = LOOP_STREAM
          · rw [if_pos hls] at h
            simp only [Option.some.injEq, Prod.mk.injEq] at h
            refine h.1 ▸ ?_
            exact rIdxInv_of_zero _ rfl
          · rw [if_neg hls] at h
            simp only [Option.map_eq_some'] at h
            obtain ⟨s1, hn, hpair⟩ := h
            injection hpair with hp1 hp2
            exact hp1 ▸ nextStream_rIdxInv c s s1 hn

theorem checkTick_rIdxInv (t : JNum) (c : ℕ) (s s2 : PlayerCore) (effs : List Eff)
    (hinv : RIdxInv s) (h : checkTick t c s = some (s2, effs)) : RIdxInv s2 := by
  simp only [checkTick] at h
  rcases hcs : getCurrentStream s with _ | stream
  · simp only [hcs] at h
    simp only [Option.some.injEq, Prod.mk.injEq] at h
    exact h.1 ▸ hinv
  · simp only [hcs] at h
    rcases hsongs : stream.songs with _ | songs
    · simp only [hsongs] at h
      simp only [Option.some.injEq, Prod.mk.injEq] at h
      exact h.1 ▸ hinv
    · simp only [hsongs] at h
      by_cases hyap : s.yapMode = true
      · rw [if_pos hyap] at h
        rcases hlast : songs.getLast? with _ | lastSong
        · simp only [hlast] at h
          exact absurd h (by simp)
        · simp only [hlast] at h
          by_cases hend : t.geQ (lastSong.stop - 1/5) = true
          · rw [if_pos hend] at h
            simp only [Option.map_eq_some'] at h
            obtain ⟨s1, hn, hpair⟩ := h
            injection hpair with hp1 hp2
            exact hp1 ▸ nextStream_rIdxInv c _ s1 hn
          · rw [if_neg hend] at h
            simp only [Option.some.injEq, Prod.mk.injEq] at h
            refine h.1 ▸ ?_
            exact sync_rIdxInv t stream s hcs hinv
      · rw [if_neg hyap] at h
        rcases hq : qIdx songs s.rIdx with _ | currentSong
        · simp only [hq] at h
          exact absurd h (by simp)
        · simp only [hq] at h
          by_cases hfar : (t.ltQ (currentSong.start - 1) || t.gtQ (currentSong.stop + 1)) = true
          · rw [if_pos hfar] at h
            rcases hfind : findIdxJS (insideSong t) songs with _ | matchIdx
            · simp only [hfind] at h
              simp only [Option.some.injEq, Prod.mk.injEq] at h
              exact h.1 ▸ hinv
            · simp only [hfind] at h
              simp only [Option.some.injEq, Prod.mk.injEq] at h
              refine h.1 ▸ ?_
              refine rIdxInv_of_natIdx _ matchIdx rfl ?_
              rw [curSongs_set_rIdx, curSongs_eq s stream songs hcs hsongs]
              exact findIdxJS_bound _ _ _ hfind
          · rw [if_neg hfar] at h
            by_cases hadv : (!(match qIdx songs (s.rIdx + 1) with
                | some nextSg =>
                  decide (jsAbs (nextSg.start - currentSong.stop) ≤ SEAMLESS_GAP_SECONDS)
                | Option.none => false) && t.geQ (currentSong.stop - 1/5)) = true
            · rw [if_pos hadv] at h
              exact advanceAuto_rIdxInv c s s2 effs hinv h
            · rw [if_neg hadv] at h
              simp only [Option.some.injEq, Prod.mk.injEq] at h
              exact h.1 ▸ hinv

theorem nextSong_rIdxInv (t : JNum) (c : ℕ) (s s2 : PlayerCore) (a : Action)
    (hinv : RIdxInv s) (h : nextSong t c s = some (s2, a)) : RIdxInv s2 := by
  simp only [nextSong] at h
  rcases hcs : getCurrentStream s with _ | stream
  · rw [hcs] at h
    exact absurd h (by simp)
  · simp only [hcs] at h
    have hs0inv : RIdxInv (syncIndexToTime t (some stream) s).2 :=
      sync_rIdxInv t stream s hcs hinv
    have hs0cs : getCurrentStream (syncIndexToTime t (some stream) s).2 = some stream := by
      rw [sync_currentStream]
      exact hcs
    rcases hsongs : stream.songs with _ | songs
    · simp only [hsongs] at h
      by_cases hls : (syncIndexToTime t (some stream) s).2.loopMode = LOOP_STREAM
      · rw [if_pos hls] at h
        simp only [Option.some.injEq, Prod.mk.injEq] at h
        exact h.1 ▸ hs0inv
      · rw [if_neg hls] at h
        exact jumpToNextStreamStart_rIdxInv c _ s2 a h
    · simp only [hsongs] at h
      have hcur0 : curSongs (syncIndexToTime t (some stream) s).2 = songs :=
        curSongs_eq _ stream songs hs0cs hsongs
      by_cases hb : (syncIndexToTime t (some stream) s).1 = Ctx.before
      · rw [if_pos hb] at h
        by_cases hy : (syncIndexToTime t (some stream) s).2.yapMode = true
        · rw [if_pos hy] at h
          cases songs with
          | nil => simp at h
          | cons sg0 rest =>
            simp only [Option.some.injEq, Prod.mk.injEq] at h
            refine h.1 ▸ ?_
            exact rIdxInv_of_zero _ rfl
        · rw [if_neg hy] at h
          simp only [Option.some.injEq, Prod.mk.injEq] at h
          refine h.1 ▸ ?_
          exact rIdxInv_of_zero _ rfl
      · rw [if_neg hb] at h
        by_cases haf : (syncIndexToTime t (some stream) s).1 = Ctx.after
        · rw [if_pos haf] at h
          by_cases hls : (syncIndexToTime t (some stream) s).2.loopMode = LOOP_STREAM
          · rw [if_pos hls] at h
            simp only [Option.some.injEq, Prod.mk.injEq] at h
            refine h.1 ▸ ?_
            exact rIdxInv_of_zero _ rfl
          · rw [if_neg hls] at h
            exact jumpToNextStreamStart_rIdxInv c _ s2 a h
        · rw [if_neg haf] at h
          by_cases hy : (syncIndexToTime t (some stream) s).2.yapMode = true
          · rw [if_pos hy] at h
            by_cases hg : (syncIndexToTime t (some stream) s).2.rIdx < (songs.length : ℚ) - 1
            · rw [if_pos hg] at h
              rcases hqq : qIdx songs ((syncIndexToTime t (some stream) s).2.rIdx + 1)
                with _ | sg
              · simp only [hqq] at h
                exact absurd h (by simp)
              · simp only [hqq, Option.some.injEq, Prod.mk.injEq] at h
                refine h.1 ▸ ?_
                exact rIdxInv_incr _ songs hcur0 hs0inv.1 hg
            · rw [if_neg hg] at h
              exact jumpToNextStreamStart_rIdxInv c _ s2 a h
          · rw [if_neg hy] at h
            by_cases hg : (syncIndexToTime t (some stream) s).2.rIdx < (songs.length : ℚ) - 1
            · rw [if_pos hg] at h
              simp only [Option.some.injEq, Prod.mk.injEq] at h
              refine h.1 ▸ ?_
              exact rIdxInv_incr _ songs hcur0 hs0inv.1 hg
            · rw [if_neg hg] at h
              by_cases hls : (syncIndexToTime t (some stream) s).2.loopMode = LOOP_STREAM
              · rw [if_pos hls] at h
                simp only [Option.some.injEq, Prod.mk.injEq] at h
                refine h.1 ▸ ?_
                exact rIdxInv_of_zero _ rfl
              · rw [if_neg hls] at h
                by_cases hlt : (syncIndexToTime t (some stream) s).2.loopMode = LOOP_TRACK
                · rw [if_pos hlt] at h
                  exact jumpToNextStreamStart_rIdxInv c _ s2 a h
                · rw [if_neg hlt] at h
                  exact jumpToNextStreamStart_rIdxInv c _ s2 a h

theorem prevSong_rIdxInv (t : JNum) (c : ℕ) (s s2 : PlayerCore) (a : Action)
    (hinv : RIdxInv s) (h : prevSong t c s = some (s2, a)) : RIdxInv s2 := by
  simp only [prevSong] at h
  rcases hcs : getCurrentStream s with _ | stream
  · rw [hcs] at h
    exact absurd h (by simp)
  · simp only [hcs] at h
    have hs0inv : RIdxInv (syncIndexToTime t (some stream) s).2 :=
      sync_rIdxInv t stream s hcs hinv
    have hs0cs : getCurrentStream (syncIndexToTime t (some stream) s).2 = some stream := by
      rw [sync_currentStream]
      exact hcs
    rcases hsongs : stream.songs with _ | songs
    · simp only [hsongs] at h
      by_cases ht : ((t.subQ (getStreamDefaultStart (some stream))).gtQ
          RESTART_THRESHOLD_SECONDS) = true
      · rw [if_pos ht] at h
        simp only [Option.some.injEq, Prod.mk.injEq] at h
        exact h.1 ▸ hs0inv
      · rw [if_neg ht] at h
        by_cases hls : (syncIndexToTime t (some stream) s).2.loopMode = LOOP_STREAM
        · rw [if_pos hls] at h
          simp only [Option.some.injEq, Prod.mk.injEq] at h
          exact h.1 ▸ hs0inv
        · rw [if_neg hls] at h
          simp only [Option.some.injEq] at h
          have h1 : (jumpToPreviousStreamEnd c (syncIndexToTime t (some stream) s).2).1 = s2 :=
            congrArg Prod.fst h
          exact h1 ▸ jumpToPreviousStreamEnd_rIdxInv c _
    · cases songs with
      | nil =>
        simp only [hsongs] at h
        by_cases ht : ((t.subQ (getStreamDefaultStart (some stream))).gtQ
            RESTART_THRESHOLD_SECONDS) = true
        · rw [if_pos ht] at h
          simp only [Option.some.injEq, Prod.mk.injEq] at h
          exact h.1 ▸ hs0inv
        · rw [if_neg ht] at h
          by_cases hls : (syncIndexToTime t (some stream) s).2.loopMode = LOOP_STREAM
          · rw [if_pos hls] at h
            simp only [Option.some.injEq, Prod.mk.injEq] at h
            exact h.1 ▸ hs0inv
          · rw [if_neg hls] at h
            simp only [Option.some.injEq] at h
            have h1 : (jumpToPreviousStreamEnd c (syncIndexToTime t (some stream) s).2).1 = s2 :=
              congrArg Prod.fst h
            exact h1 ▸ jumpToPreviousStreamEnd_rIdxInv c _
      | cons sg0 rest =>
        simp only [hsongs] at h
        have hcur0 : curSongs (syncIndexToTime t (some stream) s).2 = sg0 :: rest :=
          curSongs_eq _ stream _ hs0cs hsongs
        by_cases hb : (syncIndexToTime t (some stream) s).1 = Ctx.before
        · rw [if_pos hb] at h
          by_cases hls : (syncIndexToTime t (some stream) s).2.loopMode = LOOP_STREAM
          · rw [if_pos hls] at h
            rcases hqq : qIdx (sg0 :: rest)
                (((sg0 :: rest).length : ℚ) - 1) with _ | wrapSong
            · simp only [hqq] at h
              exact absurd h (by simp)
            · simp only [hqq, Option.some.injEq, Prod.mk.injEq] at h
              refine h.1 ▸ ?_
              exact rIdxInv_lastIdx _ sg0 rest hcur0
          · rw [if_neg hls] at h
            simp only [Option.some.injEq] at h
            have h1 : (jumpToPreviousStreamEnd c (syncIndexToTime t (some stream) s).2).1 = s2 :=
              congrArg Prod.fst h
            exact h1 ▸ jumpToPreviousStreamEnd_rIdxInv c _
        · rw [if_neg hb] at h
          by_cases hga : (syncIndexToTime t (some stream) s).1 = Ctx.gap ∨
              (syncIndexToTime t (some stream) s).1 = Ctx.after
          · rw [if_pos hga] at h
            rcases hqq : qIdx (sg0 :: rest) (syncIndexToTime t (some stream) s).2.rIdx
              with _ | target
            · simp only [hqq] at h
              exact absurd h (by simp)
            · simp only [hqq, Option.some.injEq, Prod.mk.injEq] at h
              exact h.1 ▸ hs0inv
          · rw [if_neg hga] at h
            rcases hqq : qIdx (sg0 :: rest) (syncIndexToTime t (some stream) s).2.rIdx
              with _ | song
            · simp only [hqq] at h
              exact absurd h (by simp)
            · simp only [hqq] at h
              obtain ⟨n, hn1, hn2, hn3⟩ := qIdx_natIdx _ _ _ hqq
              by_cases ht : ((t.subQ song.start).gtQ RESTART_THRESHOLD_SECONDS) = true
              · rw [if_pos ht] at h
                simp only [Option.some.injEq, Prod.mk.injEq] at h
                exact h.1 ▸ hs0inv
              · rw [if_neg ht] at h
                by_cases hp : (0 : ℚ) < (syncIndexToTime t (some stream) s).2.rIdx
                · rw [if_pos hp] at h
                  by_cases hy : (syncIndexToTime t (some stream) s).2.yapMode = true
                  · rw [if_pos hy] at h
                    rcases hqq2 : qIdx (sg0 :: rest)
                        ((syncIndexToTime t (some stream) s).2.rIdx - 1) with _ | sg
                    · simp only [hqq2] at h
                      exact absurd h (by simp)
                    · simp only [hqq2, Option.some.injEq, Prod.mk.injEq] at h
                      refine h.1 ▸ ?_
                      exact rIdxInv_decr _ (sg0 :: rest) n hcur0 hn1 hn2 hp
                  · rw [if_neg hy] at h
                    simp only [Option.some.injEq, Prod.mk.injEq] at h
                    refine h.1 ▸ ?_
                    exact rIdxInv_decr _ (sg0 :: rest) n hcur0 hn1 hn2 hp
                · rw [if_neg hp] at h
                  by_cases hls : (syncIndexToTime t (some stream) s).2.loopMode = LOOP_STREAM
                  · rw [if_pos hls] at h
                    rcases hqq2 : qIdx (sg0 :: rest)
                        (((sg0 :: rest).length : ℚ) - 1) with _ | wrapSong
                    · simp only [hqq2] at h
                      exact absurd h (by simp)
                    · simp only [hqq2, Option.some.injEq, Prod.mk.injEq] at h
                      refine h.1 ▸ ?_
                      exact rIdxInv_lastIdx _ sg0 rest hcur0
                  · rw [if_neg hls] at h
                    simp only [Option.some.injEq] at h
                    have h1 : (jumpToPreviousStreamEnd c
                        (syncIndexToTime t (some stream) s).2).1 = s2 :=
                      congrArg Prod.fst h
                    exact h1 ▸ jumpToPreviousStreamEnd_rIdxInv c _

theorem normScan_rIdxInv (time : ℚ) (total : ℕ) (s : PlayerCore) (l : List Song) (i : ℕ)
    (htot : i + l.length = total) (hpos : 0 < total) :
    ∃ j : ℕ, j < total ∧ (normScan time total s l i).2 = { s with rIdx := (j : ℚ) } := by
  induction l generalizing i with
  | nil =>
    refine ⟨total - 1, by omega, ?_⟩
    simp [normScan]
  | cons cur tl ih =>
    by_cases h1 : cur.start ≤ time ∧ time < cur.stop
    · refine ⟨i, ?_, ?_⟩
      · simp only [List.length_cons] at htot
        omega
      · simp [normScan, h1]
    · cases tl with
      | nil =>
        refine ⟨total - 1, by omega, ?_⟩
        simp [normScan, h1]
      | cons nxt tl2 =>
        by_cases h2 : cur.stop ≤ time ∧ time < nxt.start
        · refine ⟨i + 1, ?_, ?_⟩
          · simp only [List.length_cons] at htot
            omega
          · simp [normScan, h1, h2]
        · obtain ⟨j, hj, heq⟩ := ih (i + 1)
            (by simp only [List.length_cons] at htot ⊢; omega)
          refine ⟨j, hj, ?_⟩
          rw [normScan, if_neg h1, if_neg h2]
          exact heq

theorem normBranch_rIdxInv (time q : ℚ) (s s2 : PlayerCore) (stream : Stream)
    (s0 : Song) (rest : List Song)
    (hcs : getCurrentStream s = some stream) (hsongs : stream.songs = some (s0 :: rest))
    (h : (if time < s0.start then some (time, { s with rIdx := 0 })
          else some (normScan time (s0 :: rest).length s (s0 :: rest) 0)) = some (q, s2)) :
    RIdxInv s2 := by
  by_cases hlt : time < s0.start
  · rw [if_pos hlt] at h
    simp only [Option.some.injEq, Prod.mk.injEq] at h
    refine h.2 ▸ ?_
    exact rIdxInv_of_zero _ rfl
  · rw [if_neg hlt] at h
    simp only [Option.some.injEq] at h
    obtain ⟨j, hj, heq⟩ := normScan_rIdxInv time (s0 :: rest).length s (s0 :: rest) 0
      (by simp) (by simp)
    have h2 : (normScan time (s0 :: rest).length s (s0 :: rest) 0).2 = s2 := by
      rw [h]
    rw [← h2, heq]
    refine rIdxInv_of_natIdx _ j rfl ?_
    rw [curSongs_set_rIdx, curSongs_eq s stream _ hcs hsongs]
    exact hj

theorem normalizeResumeTime_rIdxInv (tj : Option JNum) (q : ℚ) (s s2 : PlayerCore)
    (hinv : RIdxInv s) (h : normalizeResumeTime tj s = some (q, s2)) : RIdxInv s2 := by
  simp only [normalizeResumeTime] at h
  rcases tj with _ | t
  · simp only [Option.some.injEq, Prod.mk.injEq] at h
    exact h.2 ▸ hinv
  · rcases hcs : getCurrentStream s with _ | stream
    · simp only [hcs, Option.some.injEq, Prod.mk.injEq] at h
      exact h.2 ▸ hinv
    · simp only [hcs] at h
      rcases hsongs : stream.songs with _ | songs
      · simp only [hsongs, Option.some.injEq, Prod.mk.injEq] at h
        exact h.2 ▸ hinv
      · simp only [hsongs] at h
        by_cases hy : s.yapMode = true
        · rw [if_pos hy] at h
          simp only [Option.some.injEq, Prod.mk.injEq] at h
          exact h.2 ▸ hinv
        · rw [if_neg hy] at h
          cases songs with
          | nil => simp at h
          | cons s0 rest => exact normBranch_rIdxInv _ q s s2 stream s0 rest hcs hsongs h

/-- One call of any state-changing `PlayerCore` operation of the claim
(calls modelled as crashing, `none`, step nowhere). -/
inductive Step : PlayerCore → PlayerCore → Prop where
  | next {s s2 : PlayerCore} (c : ℕ) (h : nextStream c s = some s2) : Step s s2
  | prev {s : PlayerCore} (skip : Bool) (c : ℕ) : Step s (prevStream skip c s)
  | nsong {s s2 : PlayerCore} (t : JNum) (c : ℕ) (a : Action)
      (h : nextSong t c s = some (s2, a)) : Step s s2
  | psong {s s2 : PlayerCore} (t : JNum) (c : ℕ) (a : Action)
      (h : prevSong t c s = some (s2, a)) : Step s s2
  | tick {s s2 : PlayerCore} (t : JNum) (c : ℕ) (effs : List Eff)
      (h : checkTick t c s = some (s2, effs)) : Step s s2
  | ended {s s2 : PlayerCore} (c : ℕ) (effs : List Eff)
      (h : onVideoEnded c s = some (s2, effs)) : Step s s2
  | auto {s s2 : PlayerCore} (c : ℕ) (effs : List Eff)
      (h : advanceAuto c s = some (s2, effs)) : Step s s2
  | tyap {s : PlayerCore} : Step s (toggleYap s)
  | tloop {s : PlayerCore} : Step s (toggleLoop s)
  | tshuf {s : PlayerCore} : Step s (toggleShuffle s)
  | norm {s s2 : PlayerCore} (tj : Option JNum) (q : ℚ)
      (h : normalizeResumeTime tj s = some (q, s2)) : Step s s2

theorem step_rIdxInv (s s2 : PlayerCore) (hstep : Step s s2) (hinv : RIdxInv s) :
    RIdxInv s2 := by
  cases hstep with
  | next c h => exact nextStream_rIdxInv c s s2 h
  | prev skip c => exact prevStream_rIdxInv skip c s
  | nsong t c a h => exact nextSong_rIdxInv t c s s2 a hinv h
  | psong t c a h => exact prevSong_rIdxInv t c s s2 a hinv h
  | tick t c effs h => exact checkTick_rIdxInv t c s s2 effs hinv h
  | ended c effs h => exact advanceAuto_rIdxInv c s s2 effs hinv h
  | auto c effs h => exact advanceAuto_rIdxInv c s s2 effs hinv h
  | tyap => exact hinv
  | tloop => exact hinv
  | tshuf => exact toggleShuffle_rIdxInv s hinv
  | norm tj q h => exact normalizeResumeTime_rIdxInv tj q s s2 hinv h

/-- States reachable from some `init` result on a non-empty playlist by
the operations of the claim. -/
def Reachable (s2 : PlayerCore) : Prop :=
  ∃ seg saved ph s0, seg ≠ [] ∧ init seg saved ph mkCore = some s0 ∧
    Relation.ReflTransGen Step s0 s2

theorem init_rIdxInv (seg : List SegmentInput) (saved : StoredSettings) (ph : Option JVal)
    (s0 : PlayerCore) (h : init seg saved ph mkCore = some s0) : RIdxInv s0 := by
  simp only [init, Option.map_eq_some'] at h
  obtain ⟨hist, hr, hs0⟩ := h
  rw [← hs0]
  exact rIdxInv_of_zero _ rfl

/-- C2: for every state reachable from `init` on a non-empty playlist by
any sequence of nextStream, prevStream, nextSong, prevSong, checkTick,
onVideoEnded, advanceAuto, toggleYap, toggleLoop, toggleShuffle and
normalizeResumeTime calls, `0 ≤ rIdx < max(1, songs.length)` holds of the
current stream's song list (Rule 0 streams have no songs, so the bound is
`rIdx < 1` there). -/
theorem rIdx_bound_invariant (s2 : PlayerCore) (h : Reachable s2) : RIdxInv s2 := by
  obtain ⟨seg, saved, ph, s0, hne, hinit, hsteps⟩ := h
  have h0 : RIdxInv s0 := init_rIdxInv seg saved ph s0 hinit
  induction hsteps with
  | refl => exact h0
  | tail hab hbc ih => exact step_rIdxInv _ _ hbc ih

/-! ### History restore resilience (claim C9) -/

/-- C9 (amended): the history restore of `init` is resilient to invalid
JSON and to malformed entries of a JSON array: a parse failure yields an
empty history (no exception propagates), a JSON array never fails, array
elements without a numeric `vIdx` member are discarded, and kept entries
default a missing `rIdx` to 0 and a missing `time` to undefined.  (The
resilience does NOT extend to valid non-array JSON, which throws — see
the counterexample.) -/
theorem init_history_resilience (seg : List SegmentInput) (saved : StoredSettings)
    (items : List JVal) (fields1 fields2 : List (String × JVal)) (v : ℚ) :
    (∃ s, init seg saved Option.none mkCore = some s ∧ s.history = [])
    ∧ (restoreHistory (some (.jarr items))).isSome
    ∧ ((∀ q, jlookup fields1 "vIdx" ≠ some (.jnum q)) →
        restoreHistory (some (.jarr [.jobj fields1, .jnull, .jstr "x", .jnum 7])) = some [])
    ∧ (jlookup fields2 "rIdx" = Option.none → jlookup fields2 "time" = Option.none →
        jlookup fields2 "vIdx" = some (.jnum v) →
        restoreHistory (some (.jarr [.jobj fields2])) =
          some [{ vIdx := v, rIdx := 0, time := Option.none }]) := by
  refine ⟨⟨_, rfl, rfl⟩, rfl, ?_, ?_⟩
  · intro h
    have he : entryOfJVal (.jobj fields1) = Option.none := by
      rcases hv : jlookup fields1 "vIdx" with _ | w
      · simp [entryOfJVal, hv]
      · cases w with
        | jnull => simp [entryOfJVal, hv]
        | jbool b => simp [entryOfJVal, hv]
        | jnum q => exact absurd hv (h q)
        | jstr str => simp [entryOfJVal, hv]
        | jarr its => simp [entryOfJVal, hv]
        | jobj fs => simp [entryOfJVal, hv]
    simp [restoreHistory, List.filterMap_cons, he, entryOfJVal, HISTORY_LIMIT]
  · intro h1 h2 h3
    simp [restoreHistory, List.filterMap_cons, entryOfJVal, h1, h2, h3, HISTORY_LIMIT]

/-- C9 counterexample: a stored session history that is valid JSON but
not an array (here the JSON text "5") is not caught by the try/catch
around `JSON.parse`; `rawHistory.filter` then throws an uncaught
TypeError, so `init` does not complete — the claim's "init never throws
for every string" is false. -/
theorem init_nonarray_history_throws :
    restoreHistory (some (.jnum 5)) = Option.none
    ∧ init [⟨"v1", Option.none, Option.none, Option.none⟩]
        ⟨false, false, Option.none, Option.none, Option.none⟩
        (some (.jnum 5)) mkCore = Option.none := ⟨rfl, rfl⟩

/-- Witness for the C9 theorem: empty-history init on an empty playlist,
a one-element array restore, a discarded entry without numeric vIdx among
non-object junk, and a kept entry with defaulted rIdx and time. -/
theorem init_history_resilience_witness :
    (∃ s, init [] ⟨false, false, Option.none, Option.none, Option.none⟩
        Option.none mkCore = some s ∧ s.history = [])
    ∧ (restoreHistory (some (.jarr [.jnull]))).isSome
    ∧ restoreHistory (some (.jarr [.jobj [("x", .jnum 1)], .jnull, .jstr "x", .jnum 7])) =
        some []
    ∧ restoreHistory (some (.jarr [.jobj [("vIdx", .jnum 2)]])) =
        some [{ vIdx := 2, rIdx := 0, time := Option.none }] := by
  obtain ⟨h1, h2, h3, h4⟩ := init_history_resilience []
    ⟨false, false, Option.none, Option.none, Option.none⟩
    [.jnull] [("x", .jnum 1)] [("vIdx", .jnum 2)] 2
  refine ⟨h1, h2, h3 ?_, h4 rfl rfl rfl⟩
  intro q hq
  rw [show jlookup [("x", JVal.jnum 1)] "vIdx" = Option.none from rfl] at hq
  exact Option.noConfusion hq

/-! ### Loop-Track and manual advancement (claim C10) -/

/-- C10: Loop-Track affects only automatic advancement.  With
loopMode = Track and the current time inside the LAST song of a
non-Rule-0 stream, a manual `nextSong` does not repeat the current song:
it advances to the next stream — a load action, a history entry
recording the departing position, rIdx reset to 0 and vIdx moved to the
next stream index — and behaves exactly as with loop None (same result
up to the stored loopMode flag); only `advanceAuto` seeks back to the
current song's start under Loop-Track, leaving the state unchanged. -/
theorem nextSong_loopTrack_manual (s : PlayerCore) (stream : Stream) (songs : List Song)
    (q : ℚ) (c : ℕ) (hcur : getCurrentStream s = some stream)
    (hs : stream.songs = some songs) (hwf : SongsWF songs) (hne : songs ≠ [])
    (hloop : s.loopMode = LOOP_TRACK)
    (hin1 : (songs.getLast hne).start ≤ q) (hin2 : q < (songs.getLast hne).stop) :
    (∃ s2, nextSong (.fin q) c s = some (s2, Action.load)
      ∧ s2.rIdx = 0
      ∧ s2.vIdx = getNextStreamIndex s c
      ∧ s2.history.getLast? =
          some ⟨s.vIdx, ((songs.length - 1 : ℕ) : ℚ), some (songs.getLast hne).start⟩
      ∧ nextSong (.fin q) c { s with loopMode := LOOP_NONE } =
          some ({ s2 with loopMode := LOOP_NONE }, Action.load))
    ∧ (qIdx songs s.rIdx = some (songs.getLast hne) →
      advanceAuto c s = some (s, [Eff.seekTo (songs.getLast hne).start])) := by
  cases songs with
  | nil => exact absurd rfl hne
  | cons c0 rest =>
    have hlenpos : 1 ≤ (c0 :: rest).length := by simp
    have hcast : (((c0 :: rest).length - 1 : ℕ) : ℚ) = (((c0 :: rest).length : ℕ) : ℚ) - 1 := by
      rw [Nat.cast_sub hlenpos]
      simp
    have hlastIdx : (c0 :: rest)[(c0 :: rest).length - 1]? =
        some ((c0 :: rest).getLast hne) := by
      rw [← List.getLast?_eq_getElem?]
      exact List.getLast?_eq_getLast _ hne
    have hsync := sync_inside s stream (c0 :: rest) hs hwf q ((c0 :: rest).length - 1)
      ((c0 :: rest).getLast hne) hlastIdx hin1 hin2
    have hsync0 := sync_inside { s with loopMode := LOOP_NONE } stream (c0 :: rest) hs hwf q
      ((c0 :: rest).length - 1) ((c0 :: rest).getLast hne) hlastIdx hin1 hin2
    have hguard : ¬((((c0 :: rest).length - 1 : ℕ) : ℚ) < (((c0 :: rest).length : ℕ) : ℚ) - 1) := by
      rw [hcast]
      exact lt_irrefl _
    have hqidx : qIdx (c0 :: rest) (((c0 :: rest).length - 1 : ℕ) : ℚ) =
        some ((c0 :: rest).getLast hne) := by
      simp only [qIdx]
      rw [if_pos ⟨rfl, Int.natCast_nonneg _⟩]
      rw [show ((((c0 :: rest).length - 1 : ℕ) : ℚ)).num.toNat = (c0 :: rest).length - 1 from rfl]
      rw [List.get?_eq_getElem?]
      exact hlastIdx
    have hjsmax : jsMax (((c0 :: rest).length - 1 : ℕ) : ℚ) 0 =
        (((c0 :: rest).length - 1 : ℕ) : ℚ) := by
      simp only [jsMax]
      split_ifs with h
      · exact (le_antisymm h (Nat.cast_nonneg _)).symm
      · rfl
    have hjsmin : jsMin (((c0 :: rest).length - 1 : ℕ) : ℚ)
        ((((c0 :: rest).length : ℕ) : ℚ) - 1) = (((c0 :: rest).length - 1 : ℕ) : ℚ) := by
      simp only [jsMin]
      rw [if_pos (le_of_eq hcast)]
    have hpos : getHistoryPosition (some stream)
        { s with rIdx := (((c0 :: rest).length - 1 : ℕ) : ℚ) } =
        some ((c0 :: rest).getLast hne).start := by
      simp only [getHistoryPosition, hs]
      rw [hjsmax, hjsmin, hqidx]
      rfl
    have hpush : pushHistory { s with rIdx := (((c0 :: rest).length - 1 : ℕ) : ℚ) } =
        some { s with
                rIdx := (((c0 :: rest).length - 1 : ℕ) : ℚ)
                history := pushedHistory s
                  ⟨s.vIdx, (((c0 :: rest).length - 1 : ℕ) : ℚ),
                    some ((c0 :: rest).getLast hne).start⟩ } := by
      simp only [pushHistory]
      rw [show getCurrentStream { s with rIdx := (((c0 :: rest).length - 1 : ℕ) : ℚ) } =
        some stream from hcur]
      rw [hpos]
      rfl
    have hnext : nextStream c { s with rIdx := (((c0 :: rest).length - 1 : ℕ) : ℚ) } =
        some { s with
                rIdx := 0
                vIdx := getNextStreamIndex s c
                history := pushedHistory s
                  ⟨s.vIdx, (((c0 :: rest).length - 1 : ℕ) : ℚ),
                    some ((c0 :: rest).getLast hne).start⟩ } := by
      rw [nextStream, hpush, Option.map_some']
      rfl
    have hpush0 : pushHistory { s with loopMode := LOOP_NONE, rIdx := (((c0 :: rest).length - 1 : ℕ) : ℚ) } =
        some { s with
                loopMode := LOOP_NONE
                rIdx := (((c0 :: rest).length - 1 : ℕ) : ℚ)
                history := pushedHistory s
                  ⟨s.vIdx, (((c0 :: rest).length - 1 : ℕ) : ℚ),
                    some ((c0 :: rest).getLast hne).start⟩ } := by
      simp only [pushHistory]
      rw [show getCurrentStream { s with loopMode := LOOP_NONE, rIdx := (((c0 :: rest).length - 1 : ℕ) : ℚ) } = some stream from hcur]
      rw [show getHistoryPosition (some stream) { s with loopMode := LOOP_NONE, rIdx := (((c0 :: rest).length - 1 : ℕ) : ℚ) } = some ((c0 :: rest).getLast hne).start from hpos]
      rfl
    have hnext0 : nextStream c { s with loopMode := LOOP_NONE, rIdx := (((c0 :: rest).length - 1 : ℕ) : ℚ) } =
        some { s with
                loopMode := LOOP_NONE
                rIdx := 0
                vIdx := getNextStreamIndex s c
                history := pushedHistory s
                  ⟨s.vIdx, (((c0 :: rest).length - 1 : ℕ) : ℚ),
                    some ((c0 :: rest).getLast hne).start⟩ } := by
      rw [nextStream, hpush0, Option.map_some']
      rfl
    have hjump : nextSong (.fin q) c s =
        jumpToNextStreamStart c { s with rIdx := (((c0 :: rest).length - 1 : ℕ) : ℚ) } := by
      simp only [nextSong, hcur, hsync, hs]
      by_cases hyap : s.yapMode = true
      · simp [hyap]
      · have hyapf : s.yapMode = false := by simpa using hyap
        simp [hyapf, hloop, LOOP_STREAM, LOOP_TRACK]
    have hns : nextSong (.fin q) c s = some
        ({ s with
            rIdx := 0
            vIdx := getNextStreamIndex s c
            history := pushedHistory s
              ⟨s.vIdx, (((c0 :: rest).length - 1 : ℕ) : ℚ),
                some ((c0 :: rest).getLast hne).start⟩ }, Action.load) := by
      rw [hjump, jumpToNextStreamStart, hnext, Option.map_some']
    have hjump0 : nextSong (.fin q) c { s with loopMode := LOOP_NONE } =
        jumpToNextStreamStart c { s with loopMode := LOOP_NONE, rIdx := (((c0 :: rest).length - 1 : ℕ) : ℚ) } := by
      simp only [nextSong]
      rw [show getCurrentStream { s with loopMode := LOOP_NONE } = some stream from hcur]
      simp only [hsync0, hs]
      by_cases hyap : s.yapMode = true
      · simp [hyap]
      · have hyapf : s.yapMode = false := by simpa using hyap
        simp [hyapf, LOOP_NONE, LOOP_STREAM, LOOP_TRACK]
    have hns0 : nextSong (.fin q) c { s with loopMode := LOOP_NONE } = some
        ({ s with
            loopMode := LOOP_NONE
            rIdx := 0
            vIdx := getNextStreamIndex s c
            history := pushedHistory s
              ⟨s.vIdx, (((c0 :: rest).length - 1 : ℕ) : ℚ),
                some ((c0 :: rest).getLast hne).start⟩ }, Action.load) := by
      rw [hjump0, jumpToNextStreamStart, hnext0, Option.map_some']
    constructor
    · exact ⟨_, hns, rfl, rfl, hist_getLast_push _ _, hns0⟩
    · intro h2
      have hsong : getCurrentSong s = some ((c0 :: rest).getLast hne) := by
        simp only [getCurrentSong, hcur, hs]
        exact h2
      simp only [advanceAuto, hloop, hsong]
      simp [LOOP_TRACK]

/-! ### Concrete states for witnesses and counterexamples

The Rat arithmetic operations are restored to their default reducibility
so that the kernel can evaluate the embedded engine on closed inputs. -/

attribute [local semireducible] Rat.mul Rat.add Rat.sub Rat.inv Rat.ofScientific

def songA : Song := ⟨"A", 0, 10⟩

def songB : Song := ⟨"B", 20, 30⟩

/-- The Example A/B stream: songs `[0,10)` and `[20,30)`. -/
def gapStream : Stream := ⟨"v1", "", "V1", some [songA, songB]⟩

def oneStream : Stream := ⟨"v2", "", "V2", some [⟨"C", 0, 10⟩]⟩

def sGap : PlayerCore :=
  { playlist := [gapStream, oneStream], vIdx := 0, rIdx := 0, loopMode := 0,
    yapMode := false, shuffleMode := false, history := [], durations := [] }

theorem gapSongsWF : SongsWF [songA, songB] := by
  constructor
  · simp only [List.chain'_cons, List.chain'_singleton, and_true, songA, songB]
    norm_num
  · intro sg h
    fin_cases h <;> norm_num [songA, songB]

/-- Witness for the C1 theorem: at time 15 the concrete stream
`[0,10),[20,30)` is classified as a gap after song 0. -/
theorem syncIndexToTime_classification_witness :
    syncIndexToTime (.fin 15) (some gapStream) sGap =
      (Ctx.gap, { sGap with rIdx := ((0 : ℕ) : ℚ) }) :=
  (syncIndexToTime_classification sGap gapStream [songA, songB] rfl gapSongsWF 15).2.2.2.1
    0 songA songB rfl rfl (by norm_num [songA]) (by norm_num [songB])

/-- Witness for the C3 theorem: resuming at time 15 (in the gap between
`[0,10)` and `[20,30)`) advances to 20 with `rIdx = 1`. -/
theorem normalizeResumeTime_spec_witness :
    normalizeResumeTime (some (.fin 15)) sGap =
      some (songB.start, { sGap with rIdx := ((0 + 1 : ℕ) : ℚ) }) :=
  (normalizeResumeTime_spec sGap gapStream [songA, songB] rfl rfl rfl gapSongsWF).1
    0 songA songB 15 (by norm_num) rfl rfl (by norm_num [songA]) (by norm_num [songB])

def rule0A : Stream := ⟨"r1", "", "R1", Option.none⟩

def rule0B : Stream := ⟨"r2", "", "R2", Option.none⟩

/-- Two Rule 0 streams, currently on the second. -/
def sRule0 : PlayerCore :=
  { playlist := [rule0A, rule0B], vIdx := 1, rIdx := 0, loopMode := 0,
    yapMode := false, shuffleMode := false, history := [], durations := [] }

/-- C4 counterexample: on a Rule 0 stream at t = 2 (LESS than 5 seconds
past the default start 0), `prevSong` does NOT restart: it jumps to the
previous stream with a load action; the restart seek happens at t = 10
(MORE than 5 seconds past the start) instead — the opposite of the
claim. -/
theorem prevSong_rule0_under_threshold_jumps :
    prevSong (.fin 2) 0 sRule0 = some ({ sRule0 with vIdx := 0 }, Action.load)
    ∧ prevSong (.fin 10) 0 sRule0 = some (sRule0, Action.seek 0) :=
  ⟨by rfl, by rfl⟩

/-- Witness for the amended C4 theorem: at t = 10 the Rule 0 stream is
restarted with a seek to its default start. -/
theorem prevSong_rule0_spec_witness :
    prevSong (.fin 10) 0 sRule0 =
      some (sRule0, Action.seek (getStreamDefaultStart (some rule0B))) :=
  (prevSong_rule0_spec sRule0 rule0B (.fin 10) 0 rfl rfl).1 (by rfl)

/-- A single-song stream with yap mode on. -/
def sYapEnd : PlayerCore :=
  { playlist := [⟨"v1", "", "V1", some [songA]⟩], vIdx := 0, rIdx := 0, loopMode := 0,
    yapMode := true, shuffleMode := false, history := [], durations := [] }

theorem no_yap_suffix_aux (b : String) : b ++ " with Yapping" ≠ "Stream Ending..." := by
  intro h
  have hd : b.data ++ (" with Yapping" : String).data = ("Stream Ending..." : String).data := by
    rw [← h]
    rfl
  have hlen : b.data.length = 3 := by
    have hl := congrArg List.length hd
    simp only [List.length_append, List.length_cons, List.length_nil] at hl
    omega
  have hdrop : (" with Yapping" : String).data = ("Stream Ending..." : String).data.drop 3 := by
    have h2 := congrArg (List.drop b.data.length) hd
    rw [List.drop_left] at h2
    rw [hlen] at h2
    exact h2
  exact absurd hdrop (by decide)

/-- C5 counterexample: with yapMode on, time 50 is past the end of the
single song `[0,10)` and `getStatusText` returns the bare
"Stream Ending..." — a string that does not end in " with Yapping" —
although the claim requires the suffix in this branch too. -/
theorem statusText_stream_ending_no_suffix :
    sYapEnd.yapMode = true
    ∧ getStatusText (.fin 50) sYapEnd = some "Stream Ending..."
    ∧ ¬∃ b, ("Stream Ending..." : String) = b ++ " with Yapping" := by
  refine ⟨rfl, by rfl, ?_⟩
  rintro ⟨b, hb⟩
  exact no_yap_suffix_aux b hb.symm

/-- Witness for the amended C5 theorem: inside the song at time 5 the
status carries the yap suffix. -/
theorem getStatusText_yap_suffix_witness :
    (∃ base, getStatusText (.fin 5) sYapEnd = some (base ++ " with Yapping"))
    ∨ getStatusText (.fin 5) sYapEnd = some "Stream Ending..." :=
  getStatusText_yap_suffix sYapEnd (.fin 5) ⟨"v1", "", "V1", some [songA]⟩ rfl rfl
    (by simp [songA])

/-- The seamless-neighbor stream `[0,10)`,`[10,20)`. -/
def seamStream : Stream := ⟨"v1", "", "V1", some [⟨"A", 0, 10⟩, ⟨"B", 10, 20⟩]⟩

def sSeam : PlayerCore :=
  { sGap with playlist := [seamStream, oneStream] }

/-- C6 (amended): in standard mode with rIdx = 0, the 0.2s-lead
auto-advance fires at `checkTick(9.9)` on the non-seamless stream
`[0,10),[20,30)` (invoking `playVideo` once); the subsequent
`checkTick(10.5)` does not invoke it; on the seamless stream
`[0,10),[10,20)` neither 9.9 nor 10.5 invokes `playVideo`, and
`checkTick(11.5)` advances `rIdx` to 1 without invoking it.  The original
claim asserted no `playVideo` for the 9.9 tick on the non-seamless
stream. -/
theorem checkTick_examples :
    checkTick (.fin (99/10)) 0 sSeam = some (sSeam, [])
    ∧ checkTick (.fin (21/2)) 0 sSeam = some (sSeam, [])
    ∧ checkTick (.fin (23/2)) 0 sSeam = some ({ sSeam with rIdx := 1 }, [])
    ∧ checkTick (.fin (99/10)) 0 sGap = some ({ sGap with rIdx := 1 }, [Eff.playVideo])
    ∧ checkTick (.fin (21/2)) 0 { sGap with rIdx := 1 } = some ({ sGap with rIdx := 1 }, []) :=
  ⟨by rfl, by rfl, by rfl, by rfl, by rfl⟩

/-- Witness for the C7 theorem: from the concrete two-stream state
(vIdx = 0, shuffle off), nextStream moves to vIdx = 1 and prevStream
restores vIdx = 0. -/
theorem nextStream_prevStream_roundtrip_witness :
    (prevStream false 0
      { sGap with vIdx := 1, rIdx := 0, history := [⟨0, 0, some 0⟩] }).vIdx = sGap.vIdx :=
  nextStream_prevStream_roundtrip sGap 0 0 rfl
    { sGap with vIdx := 1, rIdx := 0, history := [⟨0, 0, some 0⟩] } (by rfl)

/-- C6 counterexample: on the stream `[0,10),[20,30)` in standard mode
with rIdx = 0, `checkTick(9.9)` DOES invoke the `playVideo` callback (the
timestamp is within the 0.2s lead of song 0's end and the next song is
not a seamless neighbor, so `advanceAuto` fires). -/
theorem checkTick_gap_boundary_plays :
    checkTick (.fin (99/10)) 0 sGap = some ({ sGap with rIdx := 1 }, [Eff.playVideo]) := by
  rfl

/-- A concrete Loop-Track state: the gap stream with rIdx on its last
song and loopMode = Track. -/
def sTrack : PlayerCore :=
  { playlist := [gapStream, oneStream], vIdx := 0, rIdx := 1, loopMode := 1,
    yapMode := false, shuffleMode := false, history := [], durations := [] }

/-- Witness for the C10 theorem: on the Loop-Track state at t = 25
(inside the last song [20,30)), a manual nextSong loads the next stream
with rIdx 0 and a history entry, exactly as with loop None, while
advanceAuto seeks back to 20. -/
theorem nextSong_loopTrack_manual_witness :
    ∃ s2, nextSong (.fin 25) 0 sTrack = some (s2, Action.load)
      ∧ s2.rIdx = 0 ∧ s2.vIdx = getNextStreamIndex sTrack 0
      ∧ s2.history.getLast? = some ⟨0, 1, some 20⟩
      ∧ nextSong (.fin 25) 0 { sTrack with loopMode := LOOP_NONE } =
          some ({ s2 with loopMode := LOOP_NONE }, Action.load)
      ∧ advanceAuto 0 sTrack = some (sTrack, [Eff.seekTo 20]) := by
  have hne : ([songA, songB] : List Song) ≠ [] := by simp
  have hlast : [songA, songB].getLast hne = songB := rfl
  obtain ⟨⟨s2, h1, h2, h3, h4, h5⟩, h6⟩ :=
    nextSong_loopTrack_manual sTrack gapStream [songA, songB] 25 0 (by rfl) rfl
      gapSongsWF hne (by rfl) (by rw [hlast]; norm_num [songB]) (by rw [hlast]; norm_num [songB])
  refine ⟨s2, h1, h2, h3, ?_, h5, ?_⟩
  · rw [h4]
    rfl
  · rw [h6 (by rfl)]
    rfl

/-- A minimal one-segment input and empty stored settings. -/
def segOne : SegmentInput := ⟨"v1", Option.none, Option.none, Option.none⟩

def savedNone : StoredSettings := ⟨false, false, Option.none, Option.none, Option.none⟩

/-- Witness for the C8 theorem: the freshly initialized one-segment state
is reachable and its history length is within the 20-entry bound, as is
the empty restored history. -/
theorem history_bound_witness :
    ∃ s0, init [segOne] savedNone Option.none mkCore = some s0
      ∧ s0.history.length ≤ HISTORY_LIMIT
      ∧ ∃ h, restoreHistory Option.none = some h ∧ h.length ≤ HISTORY_LIMIT := by
  refine ⟨{ mkCore with playlist := [initStream segOne] }, by rfl, ?_, [], by rfl, ?_⟩
  · exact history_bound.1 _
      ⟨[segOne], savedNone, Option.none, _, by rfl, Relation.ReflTransGen.refl⟩
  · exact history_bound.2 Option.none [] (by rfl)

/-- Witness for the C2 theorem: the freshly initialized one-segment state
is reachable (in zero steps) and satisfies the rIdx bound. -/
theorem rIdx_bound_invariant_witness :
    Reachable { mkCore with playlist := [initStream segOne] } ∧
      RIdxInv { mkCore with playlist := [initStream segOne] } := by
  have hr : Reachable { mkCore with playlist := [initStream segOne] } :=
    ⟨[segOne], savedNone, Option.none, _, by simp, by rfl, Relation.ReflTransGen.refl⟩
  exact ⟨hr, rIdx_bound_invariant _ hr⟩

end RoxyRadio
